import Mathlib

/-!
# Verification of the vault audio app's in-memory store and route handlers

This file gives a shallow embedding of the repository's `MemStorage` class and
of the relevant Express route handlers, and settles the specification claims
about them.  JavaScript `Map`s (insertion ordered, keyed by numeric ids) are
modelled as association lists `List (Nat × α)` kept in insertion order;
timestamps are abstract `Nat` clock values passed in explicitly.
-/

set_option maxHeartbeats 1000000
set_option linter.unnecessarySeqFocus false

namespace Vault

/-- JS `Map.prototype.get`: the value stored at key `k`, if any. -/
def mapGet {α : Type} (m : List (Nat × α)) (k : Nat) : Option α :=
  match m with
  | [] => none
  | e :: rest => if e.1 = k then some e.2 else mapGet rest k

/-- JS `Map.prototype.set`: replaces the entry at key `k` in place, else appends. -/
def mapSet {α : Type} (m : List (Nat × α)) (k : Nat) (v : α) : List (Nat × α) :=
  match m with
  | [] => [(k, v)]
  | e :: rest => if e.1 = k then (k, v) :: rest else e :: mapSet rest k v

/-- JS `Map.prototype.delete` (the resulting map): removes the entry at key `k`. -/
def mapDelete {α : Type} (m : List (Nat × α)) (k : Nat) : List (Nat × α) :=
  m.filter (fun e => e.1 != k)

/-- JS `Map.prototype.has`, which is also what `Map.prototype.delete` returns. -/
def mapHas {α : Type} (m : List (Nat × α)) (k : Nat) : Bool :=
  (mapGet m k).isSome

/-- JS `Array.from(map.values())`, in insertion order. -/
def mapValues {α : Type} (m : List (Nat × α)) : List α :=
  m.map Prod.snd

/-! ## The data model (shared/schema.ts) -/

/-- A row of the `users` table. -/
structure User where
  id : Nat
  username : String
  password : String
  email : Option String
  phone : Option String
  fullName : Option String
  avatarColor : Option String
  deriving DecidableEq

/-- `InsertUser`: the user fields picked by `insertUserSchema` (no id). -/
structure InsertUser where
  username : String
  password : String
  email : Option String
  phone : Option String
  fullName : Option String
  avatarColor : Option String
  deriving DecidableEq

/-- `Partial<InsertUser>`: each field may be absent. -/
structure UserPatch where
  username : Option String
  password : Option String
  email : Option (Option String)
  phone : Option (Option String)
  fullName : Option (Option String)
  avatarColor : Option (Option String)
  deriving DecidableEq

/-- A row of the `categories` table. -/
structure Category where
  id : Nat
  name : String
  icon : String
  color : String
  userId : Nat
  deriving DecidableEq

/-- `InsertCategory`. -/
structure InsertCategory where
  name : String
  icon : String
  color : String
  userId : Nat
  deriving DecidableEq

/-- `Partial<InsertCategory>`. -/
structure CategoryPatch where
  name : Option String
  icon : Option String
  color : Option String
  userId : Option Nat
  deriving DecidableEq

/-- A row of the `playlists` table. -/
structure Playlist where
  id : Nat
  name : String
  userId : Nat
  color : String
  icon : String
  deriving DecidableEq

/-- `InsertPlaylist`. -/
structure InsertPlaylist where
  name : String
  userId : Nat
  color : String
  icon : String
  deriving DecidableEq

/-- `Partial<InsertPlaylist>`. -/
structure PlaylistPatch where
  name : Option String
  userId : Option Nat
  color : Option String
  icon : Option String
  deriving DecidableEq

/-- A row of the `tracks` table.  `createdAt` is an abstract clock value. -/
structure Track where
  id : Nat
  name : String
  userId : Nat
  categoryId : Option Nat
  duration : Nat
  filePath : String
  createdAt : Nat
  deriving DecidableEq

/-- `InsertTrack`: the fields picked by `insertTrackSchema` (no id, no createdAt). -/
structure InsertTrack where
  name : String
  userId : Nat
  categoryId : Option Nat
  duration : Nat
  filePath : String
  deriving DecidableEq

/-- `Partial<InsertTrack>`: in particular `createdAt` cannot appear here. -/
structure TrackPatch where
  name : Option String
  userId : Option Nat
  categoryId : Option (Option Nat)
  duration : Option Nat
  filePath : Option String
  deriving DecidableEq

/-- A row of the `playlist_tracks` join table. -/
structure PlaylistTrack where
  id : Nat
  playlistId : Nat
  trackId : Nat
  position : Int
  deriving DecidableEq

/-- `InsertPlaylistTrack`. -/
structure InsertPlaylistTrack where
  playlistId : Nat
  trackId : Nat
  position : Int
  deriving DecidableEq

/-- One element of the `getPlaylistTracks` result: `{ track, position }`. -/
structure PlaylistEntry where
  track : Track
  position : Int
  deriving DecidableEq

/-- A `User` with the `password` field stripped, as serialized by the routes. -/
structure PublicUser where
  id : Nat
  username : String
  email : Option String
  phone : Option String
  fullName : Option String
  avatarColor : Option String
  deriving DecidableEq

/-- Drops the password before serialization: `const { password, ...userData } = user`. -/
def stripPassword (u : User) : PublicUser :=
  { id := u.id, username := u.username, email := u.email, phone := u.phone
    fullName := u.fullName, avatarColor := u.avatarColor }

/-- JS object spread `{ ...user, ...updates }` for `Partial<InsertUser>`. -/
def mergeUser (u : User) (p : UserPatch) : User :=
  { id := u.id
    username := p.username.getD u.username
    password := p.password.getD u.password
    email := p.email.getD u.email
    phone := p.phone.getD u.phone
    fullName := p.fullName.getD u.fullName
    avatarColor := p.avatarColor.getD u.avatarColor }

/-- JS object spread `{ ...category, ...updates }`. -/
def mergeCategory (c : Category) (p : CategoryPatch) : Category :=
  { id := c.id
    name := p.name.getD c.name
    icon := p.icon.getD c.icon
    color := p.color.getD c.color
    userId := p.userId.getD c.userId }

/-- JS object spread `{ ...playlist, ...updates }`. -/
def mergePlaylist (pl : Playlist) (p : PlaylistPatch) : Playlist :=
  { id := pl.id
    name := p.name.getD pl.name
    userId := p.userId.getD pl.userId
    color := p.color.getD pl.color
    icon := p.icon.getD pl.icon }

/-- JS object spread `{ ...track, ...updates }`: `id` and `createdAt` cannot change. -/
def mergeTrack (t : Track) (p : TrackPatch) : Track :=
  { id := t.id
    name := p.name.getD t.name
    userId := p.userId.getD t.userId
    categoryId := p.categoryId.getD t.categoryId
    duration := p.duration.getD t.duration
    filePath := p.filePath.getD t.filePath
    createdAt := t.createdAt }

/-! ## The MemStorage class (server/storage.ts) -/

/-- The private state of `MemStorage`: five maps and five id counters. -/
structure MemStorage where
  users : List (Nat × User)
  categories : List (Nat × Category)
  playlists : List (Nat × Playlist)
  tracks : List (Nat × Track)
  playlistTracks : List (Nat × PlaylistTrack)
  userId : Nat
  categoryId : Nat
  playlistId : Nat
  trackId : Nat
  playlistTrackId : Nat
  deriving DecidableEq

namespace MemStorage

/-- `getUser(id)`. -/
def getUser (s : MemStorage) (id : Nat) : Option User :=
  mapGet s.users id

/-- `getUserByUsername(username)`. -/
def getUserByUsername (s : MemStorage) (username : String) : Option User :=
  (mapValues s.users).find? (fun u => u.username == username)

/-- `createUser(insertUser)`: assigns `id = this.userId++`. -/
def createUser (s : MemStorage) (iu : InsertUser) : User × MemStorage :=
  let id := s.userId
  let user : User :=
    { id := id, username := iu.username, password := iu.password, email := iu.email
      phone := iu.phone, fullName := iu.fullName, avatarColor := iu.avatarColor }
  (user, { s with users := mapSet s.users id user, userId := id + 1 })

/-- `updateUser(id, updates)`: merges only the provided fields. -/
def updateUser (s : MemStorage) (id : Nat) (p : UserPatch) : Option User × MemStorage :=
  match mapGet s.users id with
  | none => (none, s)
  | some u =>
    let u2 := mergeUser u p
    (some u2, { s with users := mapSet s.users id u2 })

/-- `getCategories(userId)`. -/
def getCategories (s : MemStorage) (userId : Nat) : List Category :=
  (mapValues s.categories).filter (fun c => c.userId == userId)

/-- `getCategoryById(id)`. -/
def getCategoryById (s : MemStorage) (id : Nat) : Option Category :=
  mapGet s.categories id

/-- `createCategory(insertCategory)`. -/
def createCategory (s : MemStorage) (ic : InsertCategory) : Category × MemStorage :=
  let id := s.categoryId
  let c : Category :=
    { id := id, name := ic.name, icon := ic.icon, color := ic.color, userId := ic.userId }
  (c, { s with categories := mapSet s.categories id c, categoryId := id + 1 })

/-- `updateCategory(id, updates)`. -/
def updateCategory (s : MemStorage) (id : Nat) (p : CategoryPatch) :
    Option Category × MemStorage :=
  match mapGet s.categories id with
  | none => (none, s)
  | some c =>
    let c2 := mergeCategory c p
    (some c2, { s with categories := mapSet s.categories id c2 })

/-- `deleteCategory(id)`: no cascade. -/
def deleteCategory (s : MemStorage) (id : Nat) : Bool × MemStorage :=
  (mapHas s.categories id, { s with categories := mapDelete s.categories id })

/-- `getPlaylists(userId)`. -/
def getPlaylists (s : MemStorage) (userId : Nat) : List Playlist :=
  (mapValues s.playlists).filter (fun pl => pl.userId == userId)

/-- `getPlaylistById(id)`. -/
def getPlaylistById (s : MemStorage) (id : Nat) : Option Playlist :=
  mapGet s.playlists id

/-- `createPlaylist(insertPlaylist)`. -/
def createPlaylist (s : MemStorage) (ip : InsertPlaylist) : Playlist × MemStorage :=
  let id := s.playlistId
  let pl : Playlist :=
    { id := id, name := ip.name, userId := ip.userId, color := ip.color, icon := ip.icon }
  (pl, { s with playlists := mapSet s.playlists id pl, playlistId := id + 1 })

/-- `updatePlaylist(id, updates)`. -/
def updatePlaylist (s : MemStorage) (id : Nat) (p : PlaylistPatch) :
    Option Playlist × MemStorage :=
  match mapGet s.playlists id with
  | none => (none, s)
  | some pl =>
    let pl2 := mergePlaylist pl p
    (some pl2, { s with playlists := mapSet s.playlists id pl2 })

/-- `deletePlaylist(id)`: first deletes all of the playlist's links, then the playlist. -/
def deletePlaylist (s : MemStorage) (id : Nat) : Bool × MemStorage :=
  let doomed := (mapValues s.playlistTracks).filter (fun pt => pt.playlistId == id)
  let pts := doomed.foldl (fun m pt => mapDelete m pt.id) s.playlistTracks
  (mapHas s.playlists id,
    { s with playlistTracks := pts, playlists := mapDelete s.playlists id })

/-- `getTracks(userId)`. -/
def getTracks (s : MemStorage) (userId : Nat) : List Track :=
  (mapValues s.tracks).filter (fun t => t.userId == userId)

/-- `getTrackById(id)`. -/
def getTrackById (s : MemStorage) (id : Nat) : Option Track :=
  mapGet s.tracks id

/-- `getTracksByCategory(categoryId)`: filters on `categoryId` only. -/
def getTracksByCategory (s : MemStorage) (categoryId : Nat) : List Track :=
  (mapValues s.tracks).filter (fun t => t.categoryId == some categoryId)

/-- `createTrack(insertTrack)`: stamps `createdAt = new Date()`, passed as `now`. -/
def createTrack (s : MemStorage) (it : InsertTrack) (now : Nat) : Track × MemStorage :=
  let id := s.trackId
  let t : Track :=
    { id := id, name := it.name, userId := it.userId, categoryId := it.categoryId
      duration := it.duration, filePath := it.filePath, createdAt := now }
  (t, { s with tracks := mapSet s.tracks id t, trackId := id + 1 })

/-- `updateTrack(id, updates)`. -/
def updateTrack (s : MemStorage) (id : Nat) (p : TrackPatch) : Option Track × MemStorage :=
  match mapGet s.tracks id with
  | none => (none, s)
  | some t =>
    let t2 := mergeTrack t p
    (some t2, { s with tracks := mapSet s.tracks id t2 })

/-- `deleteTrack(id)`: first removes the track from all playlists, then the track. -/
def deleteTrack (s : MemStorage) (id : Nat) : Bool × MemStorage :=
  let doomed := (mapValues s.playlistTracks).filter (fun pt => pt.trackId == id)
  let pts := doomed.foldl (fun m pt => mapDelete m pt.id) s.playlistTracks
  (mapHas s.tracks id,
    { s with playlistTracks := pts, tracks := mapDelete s.tracks id })

end MemStorage

/-- The links stored for one playlist, in map order (the filter in
`getPlaylistTracks` and in the POST handler's max-position scan). -/
def linksOf (s : MemStorage) (pid : Nat) : List PlaylistTrack :=
  (mapValues s.playlistTracks).filter (fun pt => pt.playlistId == pid)

/-- Number of stored links for the pair `(pid, tid)`. -/
def pairCount (s : MemStorage) (pid tid : Nat) : Nat :=
  ((mapValues s.playlistTracks).filter
    (fun pt => pt.playlistId == pid && pt.trackId == tid)).length

/-- Resolves each link to `{ track, position }`, throwing on a missing track
(the `if (!track) throw new Error(...)` branch). -/
def resolveEntries (tks : List (Nat × Track)) :
    List PlaylistTrack → Except String (List PlaylistEntry)
  | [] => Except.ok []
  | pt :: rest =>
    match mapGet tks pt.trackId with
    | none => Except.error ("Track not found: " ++ toString pt.trackId)
    | some t =>
      match resolveEntries tks rest with
      | Except.error e => Except.error e
      | Except.ok es => Except.ok ({ track := t, position := pt.position } :: es)

/-- Stable insertion into a position-sorted list (after all equal positions). -/
def insertByPos (e : PlaylistEntry) : List PlaylistEntry → List PlaylistEntry
  | [] => [e]
  | x :: xs => if x.position ≤ e.position then x :: insertByPos e xs else e :: x :: xs

/-- The stable ascending-by-position sort `result.sort((a, b) => a.position - b.position)`. -/
def sortByPos : List PlaylistEntry → List PlaylistEntry
  | [] => []
  | x :: xs => insertByPos x (sortByPos xs)

namespace MemStorage

/-- `getPlaylistTracks(playlistId)`: all links of the playlist, resolved to
tracks and sorted ascending by position; throws if a link's track is missing. -/
def getPlaylistTracks (s : MemStorage) (pid : Nat) : Except String (List PlaylistEntry) :=
  match resolveEntries s.tracks (linksOf s pid) with
  | Except.error e => Except.error e
  | Except.ok es => Except.ok (sortByPos es)

/-- `addTrackToPlaylist(insertPlaylistTrack)`: throws if playlist or track is
missing; returns the existing link if the pair is already present; otherwise
inserts with `id = this.playlistTrackId++`. -/
def addTrackToPlaylist (s : MemStorage) (ipt : InsertPlaylistTrack) :
    Except String PlaylistTrack × MemStorage :=
  match mapGet s.playlists ipt.playlistId with
  | none => (Except.error ("Playlist not found: " ++ toString ipt.playlistId), s)
  | some _ =>
    match mapGet s.tracks ipt.trackId with
    | none => (Except.error ("Track not found: " ++ toString ipt.trackId), s)
    | some _ =>
      match (mapValues s.playlistTracks).find?
          (fun pt => pt.playlistId == ipt.playlistId && pt.trackId == ipt.trackId) with
      | some existing => (Except.ok existing, s)
      | none =>
        let id := s.playlistTrackId
        let pt : PlaylistTrack :=
          { id := id, playlistId := ipt.playlistId, trackId := ipt.trackId
            position := ipt.position }
        (Except.ok pt,
          { s with playlistTracks := mapSet s.playlistTracks id pt,
                   playlistTrackId := id + 1 })

/-- `removeTrackFromPlaylist(playlistId, trackId)`. -/
def removeTrackFromPlaylist (s : MemStorage) (pid tid : Nat) : Bool × MemStorage :=
  match (mapValues s.playlistTracks).find?
      (fun pt => pt.playlistId == pid && pt.trackId == tid) with
  | none => (false, s)
  | some pt =>
    (mapHas s.playlistTracks pt.id,
      { s with playlistTracks := mapDelete s.playlistTracks pt.id })

/-- `updateTrackPosition(playlistId, trackId, newPosition)`. -/
def updateTrackPosition (s : MemStorage) (pid tid : Nat) (newPosition : Int) :
    Bool × MemStorage :=
  match (mapValues s.playlistTracks).find?
      (fun pt => pt.playlistId == pid && pt.trackId == tid) with
  | none => (false, s)
  | some pt =>
    let pt2 := { pt with position := newPosition }
    (true, { s with playlistTracks := mapSet s.playlistTracks pt.id pt2 })

end MemStorage

/-- The default demo user inserted by `initializeDefaultData`. -/
def defaultUser : InsertUser :=
  { username := "user", password := "password", email := some "user@example.com"
    phone := some "+1 (555) 123-4567", fullName := some "Demo User"
    avatarColor := some "#1DB954" }

/-- The store as built by the `MemStorage` constructor: empty maps, counters at 1,
then `initializeDefaultData` (one user, four categories, three playlists). -/
def initialStore : MemStorage :=
  let s0 : MemStorage :=
    { users := [], categories := [], playlists := [], tracks := [], playlistTracks := []
      userId := 1, categoryId := 1, playlistId := 1, trackId := 1, playlistTrackId := 1 }
  let (user, s1) := MemStorage.createUser s0 defaultUser
  let s2 := (MemStorage.createCategory s1
    { name := "Interviews", icon := "ri-mic-fill", color := "#1DB954", userId := user.id }).2
  let s3 := (MemStorage.createCategory s2
    { name := "Melodies", icon := "ri-file-music-fill", color := "#2D46B9", userId := user.id }).2
  let s4 := (MemStorage.createCategory s3
    { name := "Samples", icon := "ri-sound-module-fill", color := "#F230AA", userId := user.id }).2
  let s5 := (MemStorage.createCategory s4
    { name := "Podcasts", icon := "ri-vidicon-fill", color := "#FFC107", userId := user.id }).2
  let s6 := (MemStorage.createPlaylist s5
    { name := "Morning Reflections", icon := "ri-mic-fill", color := "#2D46B9", userId := user.id }).2
  let s7 := (MemStorage.createPlaylist s6
    { name := "Work Notes", icon := "ri-album-fill", color := "#F230AA", userId := user.id }).2
  (MemStorage.createPlaylist s7
    { name := "Song Ideas", icon := "ri-music-fill", color := "#1DB954", userId := user.id }).2

/-! ## Route handlers (server/routes.ts)

Each handler is modelled on its already-parsed input (route params and body
fields as numbers/strings); it returns the HTTP status, the serialized body if
any, and the store state after the call.  The fixed session user id is passed
as `uid`. -/

/-- Body of PATCH /users/me after `insertUserSchema.partial().omit({ password: true })`:
the password key cannot occur. -/
structure MeUpdate where
  username : Option String
  email : Option (Option String)
  phone : Option (Option String)
  fullName : Option (Option String)
  avatarColor : Option (Option String)
  deriving DecidableEq

/-- The parsed PATCH body as a storage-level patch. -/
def MeUpdate.toPatch (b : MeUpdate) : UserPatch :=
  { username := b.username, password := none, email := b.email, phone := b.phone
    fullName := b.fullName, avatarColor := b.avatarColor }

/-- GET /users/me: looks up the session user and strips the password. -/
def getUsersMe (s : MemStorage) (uid : Nat) : Nat × Option PublicUser :=
  match MemStorage.getUser s uid with
  | none => (404, none)
  | some u => (200, some (stripPassword u))

/-- PATCH /users/me: partial update of the session user, password stripped from
the response. -/
def patchUsersMe (s : MemStorage) (uid : Nat) (body : MeUpdate) :
    (Nat × Option PublicUser) × MemStorage :=
  match MemStorage.updateUser s uid body.toPatch with
  | (none, s2) => ((404, none), s2)
  | (some u, s2) => ((200, some (stripPassword u)), s2)

/-- GET /tracks with an optional `categoryId` query: with a category, checks the
category's owner (403 on miss or mismatch) but returns the category's tracks
without filtering them by owner. -/
def getTracksRoute (s : MemStorage) (uid : Nat) (categoryId : Option Nat) :
    Nat × Option (List Track) :=
  match categoryId with
  | some cid =>
    match MemStorage.getCategoryById s cid with
    | none => (403, none)
    | some c =>
      if c.userId = uid then (200, some (MemStorage.getTracksByCategory s cid))
      else (403, none)
  | none => (200, some (MemStorage.getTracks s uid))

/-- POST /tracks/upload: creates the track for the caller; it never checks that
`categoryId` references an existing category or one owned by the caller. -/
def postTracksUpload (s : MemStorage) (uid : Nat) (name : String) (categoryId : Nat)
    (duration : Nat) (filePath : String) (now : Nat) :
    (Nat × Option Track) × MemStorage :=
  let r := MemStorage.createTrack s
    { name := name, userId := uid, categoryId := some categoryId, duration := duration
      filePath := filePath } now
  ((201, some r.1), r.2)

/-- POST /playlists/:playlistId/tracks: 404 on a missing playlist, 403 on a
foreign one; computes `maxPosition` over the playlist's current links (`-1` when
there are none) and inserts at `maxPosition + 1`; a storage throw (in
particular a missing track) is caught by the catch-all and reported as 500. -/
def postPlaylistTrack (s : MemStorage) (uid pid tid : Nat) :
    (Nat × Option PlaylistTrack) × MemStorage :=
  match MemStorage.getPlaylistById s pid with
  | none => ((404, none), s)
  | some pl =>
    if pl.userId = uid then
      match MemStorage.getPlaylistTracks s pid with
      | Except.error _ => ((500, none), s)
      | Except.ok entries =>
        let maxPosition : Int :=
          match entries.map (fun e => e.position) with
          | [] => -1
          | p :: ps => ps.foldl max p
        match MemStorage.addTrackToPlaylist s
            { playlistId := pid, trackId := tid, position := maxPosition + 1 } with
        | (Except.error _, s2) => ((500, none), s2)
        | (Except.ok pt, s2) => ((201, some pt), s2)
    else ((403, none), s)

/-! ## Store well-formedness predicates

These hold in every reachable store state (proved below) and appear as
hypotheses of the per-operation theorems. -/

/-- Every track is stored under its own id. -/
def TrackKeys (s : MemStorage) : Prop :=
  ∀ e ∈ s.tracks, (e : Nat × Track).2.id = e.1

/-- Every playlist is stored under its own id. -/
def PlaylistKeys (s : MemStorage) : Prop :=
  ∀ e ∈ s.playlists, (e : Nat × Playlist).2.id = e.1

/-- Every playlist-track link is stored under its own id. -/
def LinkKeys (s : MemStorage) : Prop :=
  ∀ e ∈ s.playlistTracks, (e : Nat × PlaylistTrack).2.id = e.1

/-- Every link's `trackId` resolves to a stored track. -/
def LinksResolveT (s : MemStorage) : Prop :=
  ∀ e ∈ s.playlistTracks, (mapGet s.tracks (e : Nat × PlaylistTrack).2.trackId).isSome

/-- Every link's `playlistId` resolves to a stored playlist. -/
def LinksResolveP (s : MemStorage) : Prop :=
  ∀ e ∈ s.playlistTracks, (mapGet s.playlists (e : Nat × PlaylistTrack).2.playlistId).isSome

/-- All store well-formedness conditions together. -/
def Inv (s : MemStorage) : Prop :=
  TrackKeys s ∧ PlaylistKeys s ∧ LinkKeys s ∧ LinksResolveT s ∧ LinksResolveP s

/-- Pairwise-distinct usernames across the stored users. -/
def UsernamesUnique (s : MemStorage) : Prop :=
  s.users.Pairwise (fun a b => a.2.username ≠ b.2.username)

/-! ## The store's operation alphabet

One constructor per mutating `MemStorage` method, used to quantify over all
sequences of store operations. -/

/-- A single mutating store operation with its arguments. -/
inductive Op where
  | createUser (iu : InsertUser)
  | updateUser (id : Nat) (p : UserPatch)
  | createCategory (ic : InsertCategory)
  | updateCategory (id : Nat) (p : CategoryPatch)
  | deleteCategory (id : Nat)
  | createPlaylist (ip : InsertPlaylist)
  | updatePlaylist (id : Nat) (p : PlaylistPatch)
  | deletePlaylist (id : Nat)
  | createTrack (it : InsertTrack) (now : Nat)
  | updateTrack (id : Nat) (p : TrackPatch)
  | deleteTrack (id : Nat)
  | addTrackToPlaylist (ipt : InsertPlaylistTrack)
  | removeTrackFromPlaylist (pid tid : Nat)
  | updateTrackPosition (pid tid : Nat) (pos : Int)
  deriving DecidableEq

/-- The state after one store operation. -/
def applyOp (s : MemStorage) : Op → MemStorage
  | Op.createUser iu => (MemStorage.createUser s iu).2
  | Op.updateUser id p => (MemStorage.updateUser s id p).2
  | Op.createCategory ic => (MemStorage.createCategory s ic).2
  | Op.updateCategory id p => (MemStorage.updateCategory s id p).2
  | Op.deleteCategory id => (MemStorage.deleteCategory s id).2
  | Op.createPlaylist ip => (MemStorage.createPlaylist s ip).2
  | Op.updatePlaylist id p => (MemStorage.updatePlaylist s id p).2
  | Op.deletePlaylist id => (MemStorage.deletePlaylist s id).2
  | Op.createTrack it now => (MemStorage.createTrack s it now).2
  | Op.updateTrack id p => (MemStorage.updateTrack s id p).2
  | Op.deleteTrack id => (MemStorage.deleteTrack s id).2
  | Op.addTrackToPlaylist ipt => (MemStorage.addTrackToPlaylist s ipt).2
  | Op.removeTrackFromPlaylist pid tid => (MemStorage.removeTrackFromPlaylist s pid tid).2
  | Op.updateTrackPosition pid tid pos => (MemStorage.updateTrackPosition s pid tid pos).2

/-- The state after a sequence of store operations. -/
def runOps (s : MemStorage) : List Op → MemStorage
  | [] => s
  | o :: ops => runOps (applyOp s o) ops

/-- The ids handed out along a trace, as extracted by `f` from each operation
on the state it runs in (`f` returns the id assigned by a create, else none). -/
def createdIds (f : MemStorage → Op → Option Nat) : MemStorage → List Op → List Nat
  | _, [] => []
  | s, o :: ops =>
    match f s o with
    | some i => i :: createdIds f (applyOp s o) ops
    | none => createdIds f (applyOp s o) ops

/-- The id returned by a `createUser` call. -/
def userCreate (s : MemStorage) : Op → Option Nat
  | Op.createUser iu => some (MemStorage.createUser s iu).1.id
  | _ => none

/-- The id returned by a `createCategory` call. -/
def categoryCreate (s : MemStorage) : Op → Option Nat
  | Op.createCategory ic => some (MemStorage.createCategory s ic).1.id
  | _ => none

/-- The id returned by a `createPlaylist` call. -/
def playlistCreate (s : MemStorage) : Op → Option Nat
  | Op.createPlaylist ip => some (MemStorage.createPlaylist s ip).1.id
  | _ => none

/-- The id returned by a `createTrack` call. -/
def trackCreate (s : MemStorage) : Op → Option Nat
  | Op.createTrack it now => some (MemStorage.createTrack s it now).1.id
  | _ => none

/-- The id assigned by an `addTrackToPlaylist` call that actually inserts a new
link (an idempotent hit or a throw assigns no id). -/
def linkCreate (s : MemStorage) : Op → Option Nat
  | Op.addTrackToPlaylist ipt =>
    match MemStorage.addTrackToPlaylist s ipt with
    | (Except.ok pt, s2) =>
      if s2.playlistTrackId = s.playlistTrackId then none else some pt.id
    | (Except.error _, _) => none
  | _ => none

/-! ## Concrete stores used by witnesses and counterexamples -/

/-- The demo user as stored (id 1). -/
def demoUser : User :=
  { id := 1, username := "user", password := "password", email := some "user@example.com"
    phone := some "+1 (555) 123-4567", fullName := some "Demo User"
    avatarColor := some "#1DB954" }

/-- `initialStore` with one uploaded track (id 1). -/
def trackStore : MemStorage :=
  (MemStorage.createTrack initialStore
    { name := "clip", userId := 1, categoryId := none, duration := 5
      filePath := "uploads/a.mp3" } 100).2

/-- The track stored in `trackStore`. -/
def demoTrack : Track :=
  { id := 1, name := "clip", userId := 1, categoryId := none, duration := 5
    filePath := "uploads/a.mp3", createdAt := 100 }

/-- `trackStore` with a second track (id 2). -/
def twoTrackStore : MemStorage :=
  (MemStorage.createTrack trackStore
    { name := "clip2", userId := 1, categoryId := none, duration := 7
      filePath := "uploads/b.mp3" } 101).2

/-- `trackStore` with the pair (playlist 1, track 1) linked at position 0. -/
def linkStore : MemStorage :=
  (MemStorage.addTrackToPlaylist trackStore
    { playlistId := 1, trackId := 1, position := 0 }).2

/-- `twoTrackStore` after POST /playlists/1/tracks with track 1. -/
def afterFirstAdd : MemStorage :=
  (postPlaylistTrack twoTrackStore 1 1 1).2

/-- `initialStore` with a second user (id 2). -/
def secondUserStore : MemStorage :=
  (MemStorage.createUser initialStore
    { username := "mallory", password := "pw", email := none, phone := none
      fullName := none, avatarColor := none }).2

/-- User 2 uploads into user 1's category 1 (no ownership check on upload). -/
def crossUpload : (Nat × Option Track) × MemStorage :=
  postTracksUpload secondUserStore 2 "borrowed" 1 7 "uploads/c.mp3" 200

/-- The track created by `crossUpload`: owned by user 2, in user 1's category. -/
def crossTrack : Track :=
  { id := 1, name := "borrowed", userId := 2, categoryId := some 1, duration := 7
    filePath := "uploads/c.mp3", createdAt := 200 }

/-- `initialStore` after `createUser` with the already-taken username "user". -/
def dupUserStore : MemStorage :=
  (MemStorage.createUser initialStore
    { username := "user", password := "pw2", email := none, phone := none
      fullName := none, avatarColor := none }).2

/-- A patch that renames a track and touches nothing else. -/
def namePatch : TrackPatch :=
  { name := some "renamed", userId := none, categoryId := none, duration := none
    filePath := none }

/-- The all-absent track patch. -/
def emptyTrackPatch : TrackPatch :=
  { name := none, userId := none, categoryId := none, duration := none, filePath := none }

/-- The all-absent playlist patch. -/
def emptyPlaylistPatch : PlaylistPatch :=
  { name := none, userId := none, color := none, icon := none }

/-- The all-absent user patch. -/
def emptyUserPatch : UserPatch :=
  { username := none, password := none, email := none, phone := none, fullName := none
    avatarColor := none }

/-- A PATCH /users/me body setting only the full name. -/
def renameMeBody : MeUpdate :=
  { username := none, email := none, phone := none, fullName := some (some "New Name")
    avatarColor := none }

/-- The track payload used by the demo trace. -/
def demoInsertTrack : InsertTrack :=
  { name := "x", userId := 1, categoryId := none, duration := 3
    filePath := "uploads/x.mp3" }

/-- A short demo trace: create a track, then delete it again. -/
def demoOps : List Op :=
  [Op.createTrack demoInsertTrack 50, Op.deleteTrack 1]

/-! ## Lemmas about the map model -/

theorem mapGet_mem {α : Type} {m : List (Nat × α)} {k : Nat} {v : α}
    (h : mapGet m k = some v) : (k, v) ∈ m := by
  induction m with
  | nil => simp [mapGet] at h
  | cons e rest ih =>
    rw [mapGet] at h
    split at h
    · rename_i he
      obtain ⟨rfl, rfl⟩ : e.1 = k ∧ e.2 = v := ⟨he, by injection h⟩
      exact List.mem_cons_self _ _
    · exact List.mem_cons_of_mem _ (ih h)

theorem mem_mapSet {α : Type} {m : List (Nat × α)} {k : Nat} {v : α} {e : Nat × α}
    (h : e ∈ mapSet m k v) : e = (k, v) ∨ e ∈ m := by
  induction m with
  | nil => simp [mapSet] at h; simp [h]
  | cons e0 rest ih =>
    rw [mapSet] at h
    split at h
    · rcases List.mem_cons.mp h with h1 | h2
      · exact Or.inl h1
      · exact Or.inr (List.mem_cons_of_mem _ h2)
    · rcases List.mem_cons.mp h with h1 | h2
      · exact Or.inr (h1 ▸ List.mem_cons_self _ _)
      · rcases ih h2 with h3 | h4
        · exact Or.inl h3
        · exact Or.inr (List.mem_cons_of_mem _ h4)

theorem mapGet_mapSet_self {α : Type} (m : List (Nat × α)) (k : Nat) (v : α) :
    mapGet (mapSet m k v) k = some v := by
  induction m with
  | nil => simp [mapSet, mapGet]
  | cons e rest ih =>
    rw [mapSet]
    split
    · simp [mapGet]
    · rename_i he
      rw [mapGet]
      simp only [he, if_false]
      exact ih

theorem mapGet_mapSet_ne {α : Type} (m : List (Nat × α)) {k k' : Nat} (v : α)
    (h : k' ≠ k) : mapGet (mapSet m k v) k' = mapGet m k' := by
  induction m with
  | nil => simp [mapSet, mapGet, Ne.symm h]
  | cons e rest ih =>
    by_cases he : e.1 = k
    · have hne : ¬ e.1 = k' := fun hk => h (hk.symm.trans he)
      rw [mapSet, if_pos he]
      simp only [mapGet]
      rw [if_neg (Ne.symm h), if_neg hne]
    · rw [mapSet, if_neg he]
      simp only [mapGet]
      rw [ih]

theorem mem_mapDelete {α : Type} {m : List (Nat × α)} {k : Nat} {e : Nat × α} :
    e ∈ mapDelete m k ↔ e ∈ m ∧ e.1 ≠ k := by
  simp [mapDelete, List.mem_filter]

theorem mapGet_mapDelete_ne {α : Type} (m : List (Nat × α)) {k k' : Nat}
    (h : k' ≠ k) : mapGet (mapDelete m k) k' = mapGet m k' := by
  induction m with
  | nil => rfl
  | cons e rest ih =>
    by_cases he : e.1 = k
    · have hne : ¬ e.1 = k' := fun hk => h (hk.symm.trans he)
      rw [mapDelete, List.filter_cons_of_neg (by simp [he]), ← mapDelete, ih]
      rw [show mapGet (e :: rest) k' = mapGet rest k' from by
        simp only [mapGet]; rw [if_neg hne]]
    · rw [mapDelete, List.filter_cons_of_pos (by simp [he]), ← mapDelete]
      simp only [mapGet]
      rw [ih]

theorem mapGet_eq_none {α : Type} {m : List (Nat × α)} {k : Nat} :
    mapGet m k = none ↔ ∀ e ∈ m, e.1 ≠ k := by
  induction m with
  | nil => simp [mapGet]
  | cons e rest ih =>
    rw [mapGet]
    constructor
    · intro h
      split at h
      · exact absurd h (by simp)
      · rename_i he
        intro e' he'
        rcases List.mem_cons.mp he' with rfl | hm
        · exact he
        · exact ih.mp h e' hm
    · intro h
      split
      · exact absurd (by assumption) (h e (List.mem_cons_self _ _))
      · exact ih.mpr (fun e' he' => h e' (List.mem_cons_of_mem _ he'))

theorem mapDelete_of_none {α : Type} {m : List (Nat × α)} {k : Nat}
    (h : mapGet m k = none) : mapDelete m k = m := by
  have hall := mapGet_eq_none.mp h
  simp only [mapDelete]
  exact List.filter_eq_self.mpr (fun e he => by simp [hall e he])

theorem mapHas_eq_false {α : Type} {m : List (Nat × α)} {k : Nat}
    (h : mapGet m k = none) : mapHas m k = false := by
  simp [mapHas, h]

theorem mem_mapValues {α : Type} {m : List (Nat × α)} {v : α} :
    v ∈ mapValues m ↔ ∃ k, (k, v) ∈ m := by
  simp only [mapValues, List.mem_map]
  constructor
  · rintro ⟨⟨k, v'⟩, hm, rfl⟩
    exact ⟨k, hm⟩
  · rintro ⟨k, hm⟩
    exact ⟨(k, v), hm, rfl⟩

theorem mapGet_isSome_mapSet {α : Type} (m : List (Nat × α)) (k k' : Nat) (v : α)
    (h : (mapGet m k').isSome) : (mapGet (mapSet m k v) k').isSome := by
  by_cases hk : k' = k
  · subst hk; simp [mapGet_mapSet_self]
  · rwa [mapGet_mapSet_ne m v hk]

/-! ## Helper lemmas about the sort, the entry resolution and the cascades -/

theorem mem_insertByPos {e a : PlaylistEntry} {l : List PlaylistEntry} :
    a ∈ insertByPos e l ↔ a = e ∨ a ∈ l := by
  induction l with
  | nil => simp [insertByPos]
  | cons x xs ih =>
    rw [insertByPos]
    split <;> simp only [List.mem_cons, ih] <;> tauto

theorem mem_sortByPos {a : PlaylistEntry} {l : List PlaylistEntry} :
    a ∈ sortByPos l ↔ a ∈ l := by
  induction l with
  | nil => simp [sortByPos]
  | cons x xs ih =>
    rw [sortByPos, mem_insertByPos]
    simp [ih]

theorem countP_insertByPos (p : PlaylistEntry → Bool) (e : PlaylistEntry)
    (l : List PlaylistEntry) :
    (insertByPos e l).countP p = (if p e then 1 else 0) + l.countP p := by
  induction l with
  | nil => simp [insertByPos, List.countP_cons]
  | cons x xs ih =>
    rw [insertByPos]
    split
    · simp only [List.countP_cons, ih]
      omega
    · simp only [List.countP_cons]
      omega

theorem countP_sortByPos (p : PlaylistEntry → Bool) (l : List PlaylistEntry) :
    (sortByPos l).countP p = l.countP p := by
  induction l with
  | nil => rfl
  | cons x xs ih =>
    rw [sortByPos, countP_insertByPos, ih, List.countP_cons]
    omega

theorem length_sortByPos (l : List PlaylistEntry) : (sortByPos l).length = l.length := by
  have h1 : ∀ (e : PlaylistEntry) (l1 : List PlaylistEntry),
      (insertByPos e l1).length = l1.length + 1 := by
    intro e l1
    induction l1 with
    | nil => rfl
    | cons x xs ih =>
      rw [insertByPos]
      split
      · simp [ih]
      · simp
  induction l with
  | nil => rfl
  | cons x xs ih => rw [sortByPos, h1, ih, List.length_cons]

theorem resolveEntries_map_position {tks : List (Nat × Track)} {pts : List PlaylistTrack}
    {es : List PlaylistEntry} (h : resolveEntries tks pts = Except.ok es) :
    es.map (fun e => e.position) = pts.map (fun pt => pt.position) := by
  induction pts generalizing es with
  | nil =>
    rw [resolveEntries] at h
    injection h with h
    subst h
    rfl
  | cons pt rest ih =>
    rw [resolveEntries] at h
    split at h
    · exact absurd h (by simp)
    · split at h
      · exact absurd h (by simp)
      · rename_i t ht es0 hes0
        injection h with h
        subst h
        simp only [List.map_cons]
        rw [ih hes0]

theorem resolveEntries_countP_track {tks : List (Nat × Track)} {pts : List PlaylistTrack}
    {es : List PlaylistEntry} {tid : Nat} (h : resolveEntries tks pts = Except.ok es)
    (hk : ∀ e ∈ tks, (e : Nat × Track).2.id = e.1) :
    es.countP (fun e => e.track.id == tid) = pts.countP (fun pt => pt.trackId == tid) := by
  induction pts generalizing es with
  | nil =>
    rw [resolveEntries] at h
    injection h with h
    subst h
    rfl
  | cons pt rest ih =>
    rw [resolveEntries] at h
    rcases hmt : mapGet tks pt.trackId with _ | t
    · simp [hmt] at h
    · simp only [hmt] at h
      rcases hre : resolveEntries tks rest with e0 | es0
      · simp [hre] at h
      · simp only [hre] at h
        injection h with h
        subst h
        have hid : t.id = pt.trackId := hk _ (mapGet_mem hmt)
        rw [List.countP_cons, List.countP_cons, ih hre]
        simp [hid]

theorem resolveEntries_ok_of_isSome {tks : List (Nat × Track)} {pts : List PlaylistTrack}
    (h : ∀ pt ∈ pts, (mapGet tks pt.trackId).isSome) :
    ∃ es, resolveEntries tks pts = Except.ok es := by
  induction pts with
  | nil => exact ⟨[], rfl⟩
  | cons pt rest ih =>
    obtain ⟨t, ht⟩ := Option.isSome_iff_exists.mp (h pt (List.mem_cons_self _ _))
    obtain ⟨es, hes⟩ := ih (fun q hq => h q (List.mem_cons_of_mem _ hq))
    refine ⟨{ track := t, position := pt.position } :: es, ?_⟩
    rw [resolveEntries, ht, hes]

theorem mem_foldDelete {doomed : List PlaylistTrack} {m : List (Nat × PlaylistTrack)}
    {e : Nat × PlaylistTrack} :
    e ∈ doomed.foldl (fun acc pt => mapDelete acc pt.id) m ↔
      e ∈ m ∧ ∀ pt ∈ doomed, e.1 ≠ pt.id := by
  induction doomed generalizing m with
  | nil => simp
  | cons pt rest ih =>
    rw [List.foldl_cons, ih]
    rw [mem_mapDelete]
    constructor
    · rintro ⟨⟨hm, hne⟩, hall⟩
      refine ⟨hm, ?_⟩
      intro q hq
      rcases List.mem_cons.mp hq with rfl | hq2
      · exact hne
      · exact hall q hq2
    · rintro ⟨hm, hall⟩
      exact ⟨⟨hm, hall pt (List.mem_cons_self _ _)⟩,
        fun q hq => hall q (List.mem_cons_of_mem _ hq)⟩

theorem foldl_max_init (ps : List Int) (p : Int) : p ≤ ps.foldl max p := by
  induction ps generalizing p with
  | nil => exact le_refl p
  | cons q ps ih => exact le_trans (le_max_left p q) (ih (max p q))

theorem foldl_max_le {x : Int} {ps : List Int} {p : Int} (h : x ∈ p :: ps) :
    x ≤ ps.foldl max p := by
  induction ps generalizing p with
  | nil =>
    rcases List.mem_cons.mp h with rfl | h2
    · exact le_refl x
    · exact absurd h2 (List.not_mem_nil x)
  | cons q ps ih =>
    rw [List.foldl_cons]
    rcases List.mem_cons.mp h with rfl | h2
    · exact le_trans (le_max_left x q) (foldl_max_init ps _)
    · rcases List.mem_cons.mp h2 with rfl | h3
      · exact le_trans (le_max_right p x) (foldl_max_init ps _)
      · exact ih (List.mem_cons_of_mem _ h3)

theorem foldl_max_mem (ps : List Int) (p : Int) : ps.foldl max p ∈ p :: ps := by
  induction ps generalizing p with
  | nil => exact List.mem_cons_self _ _
  | cons q ps ih =>
    rw [List.foldl_cons]
    rcases List.mem_cons.mp (ih (max p q)) with hm | hm
    · rcases max_choice p q with hc | hc
      · rw [hm, hc]; exact List.mem_cons_self _ _
      · rw [hm, hc]; exact List.mem_cons_of_mem _ (List.mem_cons_self _ _)
    · exact List.mem_cons_of_mem _ (List.mem_cons_of_mem _ hm)

/-! ## C6: updates are partial merges -/

/-- C6: for tracks and users, `update(id, partialFields)` returns absent and
leaves the store unchanged when the id is unknown; when the id exists it
overwrites exactly the provided fields, leaves every absent field (and every
other stored entity) unchanged, never changes the id, and for tracks never
changes `createdAt`. -/
theorem c6_update_is_partial_merge (s : MemStorage) (id : Nat) (tp : TrackPatch)
    (up : UserPatch) :
    (mapGet s.tracks id = none → MemStorage.updateTrack s id tp = (none, s)) ∧
    (∀ tr, mapGet s.tracks id = some tr →
      MemStorage.updateTrack s id tp =
        (some (mergeTrack tr tp), { s with tracks := mapSet s.tracks id (mergeTrack tr tp) }) ∧
      (mergeTrack tr tp).id = tr.id ∧
      (mergeTrack tr tp).createdAt = tr.createdAt ∧
      (tp.name = none → (mergeTrack tr tp).name = tr.name) ∧
      (∀ v, tp.name = some v → (mergeTrack tr tp).name = v) ∧
      (tp.userId = none → (mergeTrack tr tp).userId = tr.userId) ∧
      (∀ v, tp.userId = some v → (mergeTrack tr tp).userId = v) ∧
      (tp.categoryId = none → (mergeTrack tr tp).categoryId = tr.categoryId) ∧
      (∀ v, tp.categoryId = some v → (mergeTrack tr tp).categoryId = v) ∧
      (tp.duration = none → (mergeTrack tr tp).duration = tr.duration) ∧
      (∀ v, tp.duration = some v → (mergeTrack tr tp).duration = v) ∧
      (tp.filePath = none → (mergeTrack tr tp).filePath = tr.filePath) ∧
      (∀ v, tp.filePath = some v → (mergeTrack tr tp).filePath = v) ∧
      (∀ k, k ≠ id →
        mapGet (MemStorage.updateTrack s id tp).2.tracks k = mapGet s.tracks k)) ∧
    (mapGet s.users id = none → MemStorage.updateUser s id up = (none, s)) ∧
    (∀ u, mapGet s.users id = some u →
      MemStorage.updateUser s id up =
        (some (mergeUser u up), { s with users := mapSet s.users id (mergeUser u up) }) ∧
      (mergeUser u up).id = u.id ∧
      (up.username = none → (mergeUser u up).username = u.username) ∧
      (∀ v, up.username = some v → (mergeUser u up).username = v) ∧
      (up.password = none → (mergeUser u up).password = u.password) ∧
      (∀ v, up.password = some v → (mergeUser u up).password = v) ∧
      (up.email = none → (mergeUser u up).email = u.email) ∧
      (∀ v, up.email = some v → (mergeUser u up).email = v) ∧
      (up.phone = none → (mergeUser u up).phone = u.phone) ∧
      (∀ v, up.phone = some v → (mergeUser u up).phone = v) ∧
      (up.fullName = none → (mergeUser u up).fullName = u.fullName) ∧
      (∀ v, up.fullName = some v → (mergeUser u up).fullName = v) ∧
      (up.avatarColor = none → (mergeUser u up).avatarColor = u.avatarColor) ∧
      (∀ v, up.avatarColor = some v → (mergeUser u up).avatarColor = v) ∧
      (∀ k, k ≠ id →
        mapGet (MemStorage.updateUser s id up).2.users k = mapGet s.users k)) := by
  refine ⟨?_, ?_, ?_, ?_⟩
  · intro h
    simp [MemStorage.updateTrack, h]
  · intro tr htr
    refine ⟨by simp [MemStorage.updateTrack, htr], rfl, rfl, ?_, ?_, ?_, ?_, ?_, ?_, ?_,
      ?_, ?_, ?_, ?_⟩
    · intro h; simp [mergeTrack, h]
    · intro v h; simp [mergeTrack, h]
    · intro h; simp [mergeTrack, h]
    · intro v h; simp [mergeTrack, h]
    · intro h; simp [mergeTrack, h]
    · intro v h; simp [mergeTrack, h]
    · intro h; simp [mergeTrack, h]
    · intro v h; simp [mergeTrack, h]
    · intro h; simp [mergeTrack, h]
    · intro v h; simp [mergeTrack, h]
    · intro k hk
      simp only [MemStorage.updateTrack, htr]
      exact mapGet_mapSet_ne _ _ hk
  · intro h
    simp [MemStorage.updateUser, h]
  · intro u hu
    refine ⟨by simp [MemStorage.updateUser, hu], rfl, ?_, ?_, ?_, ?_, ?_, ?_, ?_, ?_,
      ?_, ?_, ?_, ?_, ?_⟩
    · intro h; simp [mergeUser, h]
    · intro v h; simp [mergeUser, h]
    · intro h; simp [mergeUser, h]
    · intro v h; simp [mergeUser, h]
    · intro h; simp [mergeUser, h]
    · intro v h; simp [mergeUser, h]
    · intro h; simp [mergeUser, h]
    · intro v h; simp [mergeUser, h]
    · intro h; simp [mergeUser, h]
    · intro v h; simp [mergeUser, h]
    · intro h; simp [mergeUser, h]
    · intro v h; simp [mergeUser, h]
    · intro k hk
      simp only [MemStorage.updateUser, hu]
      exact mapGet_mapSet_ne _ _ hk

/-- C6 witness: concrete absent-id and present-id updates on `trackStore`. -/
theorem c6_witness :
    MemStorage.updateTrack trackStore 99 namePatch = (none, trackStore) ∧
    (mergeTrack demoTrack namePatch).createdAt = demoTrack.createdAt ∧
    (mergeTrack demoTrack namePatch).name = "renamed" ∧
    (mergeTrack demoTrack namePatch).duration = demoTrack.duration ∧
    mapGet (MemStorage.updateTrack trackStore 1 namePatch).2.tracks 2 =
      mapGet trackStore.tracks 2 := by
  have h1 := (c6_update_is_partial_merge trackStore 99 namePatch emptyUserPatch).1
  have h2 := (c6_update_is_partial_merge trackStore 1 namePatch emptyUserPatch).2.1
    demoTrack (by decide)
  refine ⟨h1 (by decide), h2.2.2.1, ?_, ?_, ?_⟩
  · exact h2.2.2.2.2.1 "renamed" (by decide)
  · exact h2.2.2.2.2.2.2.2.2.2.1 (by decide)
  · exact h2.2.2.2.2.2.2.2.2.2.2.2.2.2 2 (by decide)

/-! ## C7: the password never reaches a response -/

/-- C7: GET /users/me and PATCH /users/me strip the password before
serialization: two stores that differ only in the stored password of the
session user produce identical response statuses and bodies. -/
theorem c7_password_never_serialized (s : MemStorage) (uid : Nat) (u : User) (p : String)
    (body : MeUpdate) (hu : mapGet s.users uid = some u) :
    getUsersMe { s with users := mapSet s.users uid { u with password := p } } uid
      = getUsersMe s uid ∧
    (patchUsersMe { s with users := mapSet s.users uid { u with password := p } } uid
        body).1
      = (patchUsersMe s uid body).1 := by
  constructor
  · simp [getUsersMe, MemStorage.getUser, hu, mapGet_mapSet_self, stripPassword]
  · simp [patchUsersMe, MemStorage.updateUser, hu, mapGet_mapSet_self, MeUpdate.toPatch,
      mergeUser, stripPassword]

/-- C7 witness: changing the demo user's stored password leaves both the GET
and the PATCH response unchanged. -/
theorem c7_witness :
    getUsersMe
        { initialStore with
          users := mapSet initialStore.users 1 { demoUser with password := "hunter2" } } 1
      = getUsersMe initialStore 1 ∧
    (patchUsersMe
        { initialStore with
          users := mapSet initialStore.users 1 { demoUser with password := "hunter2" } } 1
        renameMeBody).1
      = (patchUsersMe initialStore 1 renameMeBody).1 :=
  c7_password_never_serialized initialStore 1 demoUser "hunter2" renameMeBody (by decide)

/-! ## C10: the category query ignores track ownership -/

/-- C10: `getTracksByCategory` keeps exactly the tracks whose `categoryId`
matches, with no owner filter; uploads never check the supplied category's
owner, so GET /tracks?categoryId= can return tracks owned by other users. -/
theorem c10_category_query_ignores_owner :
    (∀ (s : MemStorage) (cid : Nat) (t : Track),
      t ∈ MemStorage.getTracksByCategory s cid ↔
        t ∈ mapValues s.tracks ∧ t.categoryId = some cid) ∧
    (mapGet secondUserStore.categories 1).map Category.userId = some 1 ∧
    crossUpload.1.1 = 201 ∧
    crossUpload.1.2.map Track.userId = some 2 ∧
    (getTracksRoute crossUpload.2 1 (some 1)).1 = 200 ∧
    (∃ l, (getTracksRoute crossUpload.2 1 (some 1)).2 = some l ∧
      ∃ t ∈ l, t.userId ≠ 1) := by
  refine ⟨?_, by decide, by decide, by decide, by decide, ?_⟩
  · intro s cid t
    simp [MemStorage.getTracksByCategory, List.mem_filter]
  · exact ⟨[crossTrack], by decide, crossTrack, by decide, by decide⟩

/-- C10 witness: the membership characterization applied at the cross-owner
upload state. -/
theorem c10_witness :
    crossTrack ∈ MemStorage.getTracksByCategory crossUpload.2 1 ↔
      crossTrack ∈ mapValues crossUpload.2.tracks ∧ crossTrack.categoryId = some 1 :=
  c10_category_query_ignores_owner.1 crossUpload.2 1 crossTrack

/-! ## C9: username uniqueness is not enforced by the store -/

/-- C9 counterexample: `createUser` performs no uniqueness check, so after
creating a second user with the already-taken username "user" the store holds
two distinct users with the same username. -/
theorem c9_counterexample :
    (mapGet dupUserStore.users 1).map User.username = some "user" ∧
    (mapGet dupUserStore.users 2).map User.username = some "user" ∧
    (1 : Nat) ≠ 2 := by
  refine ⟨by decide, by decide, by decide⟩

/-- Inserting a value whose username avoids all other entries preserves
pairwise-distinct usernames. -/
theorem pairwise_username_mapSet {m : List (Nat × User)} {k : Nat} {v : User}
    (hnd : (m.map Prod.fst).Nodup)
    (hp : m.Pairwise (fun a b => a.2.username ≠ b.2.username))
    (hfresh : ∀ e ∈ m, (e : Nat × User).1 ≠ k → (e : Nat × User).2.username ≠ v.username) :
    (mapSet m k v).Pairwise (fun a b => a.2.username ≠ b.2.username) := by
  induction m with
  | nil => simp [mapSet]
  | cons e rest ih =>
    rw [List.map_cons, List.nodup_cons] at hnd
    rw [List.pairwise_cons] at hp
    rw [mapSet]
    split
    · rename_i he
      rw [List.pairwise_cons]
      refine ⟨?_, hp.2⟩
      intro b hb
      have hbk : b.1 ≠ k := by
        intro hbk
        exact hnd.1 (he ▸ hbk ▸ List.mem_map_of_mem Prod.fst hb)
      exact Ne.symm (hfresh b (List.mem_cons_of_mem _ hb) hbk)
    · rename_i he
      rw [List.pairwise_cons]
      refine ⟨?_, ih hnd.2 hp.2
        (fun b hb hbk => hfresh b (List.mem_cons_of_mem _ hb) hbk)⟩
      intro b hb
      rcases mem_mapSet hb with rfl | hbr
      · exact hfresh e (List.mem_cons_self _ _) he
      · exact hp.1 b hbr

/-- C9 amended: the store itself performs no username-uniqueness check (see the
counterexample); pairwise-distinct usernames are an invariant only of the calls
that supply a username not used by any other stored user, for both `createUser`
and `updateUser` (hence PATCH /users/me). -/
theorem c9_username_unique_only_for_fresh_inputs (s : MemStorage) (iu : InsertUser)
    (id : Nat) (up : UserPatch)
    (hnd : (s.users.map Prod.fst).Nodup)
    (hu : UsernamesUnique s) :
    ((∀ e ∈ s.users, (e : Nat × User).2.username ≠ iu.username) →
      UsernamesUnique (MemStorage.createUser s iu).2) ∧
    ((∀ v, up.username = some v →
        ∀ e ∈ s.users, (e : Nat × User).1 ≠ id → (e : Nat × User).2.username ≠ v) →
      UsernamesUnique (MemStorage.updateUser s id up).2) := by
  constructor
  · intro hfresh
    unfold UsernamesUnique at hu ⊢
    simp only [MemStorage.createUser]
    exact pairwise_username_mapSet hnd hu (fun e he _ => hfresh e he)
  · intro hfresh
    unfold UsernamesUnique at hu ⊢
    rcases hget : mapGet s.users id with _ | u
    · simp [MemStorage.updateUser, hget]
      exact hu
    · simp only [MemStorage.updateUser, hget]
      refine pairwise_username_mapSet hnd hu ?_
      intro e he hek
      rcases hname : up.username with _ | v
      · have hmem : (id, u) ∈ s.users := mapGet_mem hget
        have hne : e ≠ (id, u) := fun hcontra => hek (by rw [hcontra])
        have hsym : Symmetric (fun a b : Nat × User => a.2.username ≠ b.2.username) :=
          fun a b hab => Ne.symm hab
        have := List.Pairwise.forall hsym hu he hmem hne
        simpa [mergeUser, hname] using this
      · have := hfresh v hname e he hek
        simpa [mergeUser, hname] using this

/-- C9 amended witness: creating a user with a fresh username preserves
username uniqueness from the seeded store. -/
theorem c9_amended_witness :
    UsernamesUnique (MemStorage.createUser initialStore
      { username := "alice", password := "pw", email := none, phone := none
        fullName := none, avatarColor := none }).2 :=
  (c9_username_unique_only_for_fresh_inputs initialStore
      { username := "alice", password := "pw", email := none, phone := none
        fullName := none, avatarColor := none } 1 emptyUserPatch
      (by decide) (by unfold UsernamesUnique; decide)).1 (by decide)

/-! ## C5: failure modes of POST /playlists/:playlistId/tracks -/

/-- C5 counterexample: with playlist 1 present (owned by the caller) and track
999 absent, the endpoint returns 500, not NotFound (404) as the claim states;
no link row is created. -/
theorem c5_counterexample :
    mapHas initialStore.playlists 1 = true ∧
    mapGet initialStore.tracks 999 = none ∧
    postPlaylistTrack initialStore 1 1 999 = ((500, none), initialStore) ∧
    (500 : Nat) ≠ 404 := by
  refine ⟨by decide, by decide, by decide, by decide⟩

/-- C5 amended: a missing playlist yields NotFound (404) with the store
unchanged; an existing, owned playlist with a missing track makes the storage
layer throw, which the handler reports as 500 — also with the store unchanged,
so no PlaylistTrack row is created in either failure case. -/
theorem c5_add_failure_modes (s : MemStorage) (uid pid tid : Nat) :
    (mapGet s.playlists pid = none → postPlaylistTrack s uid pid tid = ((404, none), s)) ∧
    (∀ pl es, mapGet s.playlists pid = some pl → pl.userId = uid →
      MemStorage.getPlaylistTracks s pid = Except.ok es →
      mapGet s.tracks tid = none →
      postPlaylistTrack s uid pid tid = ((500, none), s)) := by
  constructor
  · intro h
    simp [postPlaylistTrack, MemStorage.getPlaylistById, h]
  · intro pl es hpl hown hres htr
    simp only [postPlaylistTrack, MemStorage.getPlaylistById, hpl, hown, if_true, hres]
    simp [MemStorage.addTrackToPlaylist, hpl, htr]

/-- C5 amended witness: both failure modes at concrete inputs. -/
theorem c5_witness :
    postPlaylistTrack initialStore 1 99 1 = ((404, none), initialStore) ∧
    postPlaylistTrack initialStore 1 1 999 = ((500, none), initialStore) := by
  refine ⟨(c5_add_failure_modes initialStore 1 99 1).1 (by decide), ?_⟩
  exact (c5_add_failure_modes initialStore 1 1 999).2
    { id := 1, name := "Morning Reflections", userId := 1, color := "#2D46B9"
      icon := "ri-mic-fill" } []
    (by decide) (by decide) (by rfl) (by decide)

/-! ## C1: idempotent insert -/

/-- C1: when the pair is already linked (exactly once, with its track stored),
`addTrackToPlaylist` returns the existing link and leaves the whole store
untouched — no duplicate row, no position change — and `getPlaylistTracks`
holds exactly one entry for the pair. -/
theorem c1_add_is_idempotent (s : MemStorage) (pid tid : Nat) (posArg : Int)
    (pt0 : PlaylistTrack)
    (hpl : (mapGet s.playlists pid).isSome)
    (hfind : (mapValues s.playlistTracks).find?
        (fun pt => pt.playlistId == pid && pt.trackId == tid) = some pt0)
    (hcount : pairCount s pid tid = 1)
    (hkeys : TrackKeys s)
    (hres : LinksResolveT s) :
    MemStorage.addTrackToPlaylist s
        { playlistId := pid, trackId := tid, position := posArg } = (Except.ok pt0, s) ∧
    ∃ es, MemStorage.getPlaylistTracks s pid = Except.ok es ∧
      es.countP (fun e => e.track.id == tid) = 1 := by
  have hmem : pt0 ∈ mapValues s.playlistTracks := List.mem_of_find?_eq_some hfind
  have hpt0 : pt0.playlistId = pid ∧ pt0.trackId = tid := by
    have hpred := List.find?_some hfind
    simpa using hpred
  obtain ⟨k0, hk0⟩ := mem_mapValues.mp hmem
  have htr : (mapGet s.tracks tid).isSome := by
    have h := hres (k0, pt0) hk0
    rwa [hpt0.2] at h
  obtain ⟨pl, hpl2⟩ := Option.isSome_iff_exists.mp hpl
  obtain ⟨t, ht2⟩ := Option.isSome_iff_exists.mp htr
  constructor
  · simp only [MemStorage.addTrackToPlaylist, hpl2, ht2, hfind]
  · have hall : ∀ pt ∈ linksOf s pid, (mapGet s.tracks pt.trackId).isSome := by
      intro pt hpt
      have hv : pt ∈ mapValues s.playlistTracks := (List.mem_filter.mp hpt).1
      obtain ⟨k, hk⟩ := mem_mapValues.mp hv
      exact hres (k, pt) hk
    obtain ⟨es0, hes0⟩ := resolveEntries_ok_of_isSome hall
    refine ⟨sortByPos es0, ?_, ?_⟩
    · simp only [MemStorage.getPlaylistTracks, hes0]
    · rw [countP_sortByPos, resolveEntries_countP_track hes0 hkeys]
      have hcp : (linksOf s pid).countP (fun pt => pt.trackId == tid)
          = pairCount s pid tid := by
        rw [linksOf, List.countP_filter, pairCount, ← List.countP_eq_length_filter]
        apply List.countP_congr
        intro a _
        simp [Bool.and_comm]
      rw [hcp, hcount]

/-- C1 witness: re-adding the already-linked pair (playlist 1, track 1). -/
theorem c1_witness :
    MemStorage.addTrackToPlaylist linkStore
        { playlistId := 1, trackId := 1, position := 5 }
      = (Except.ok { id := 1, playlistId := 1, trackId := 1, position := 0 }, linkStore) ∧
    ∃ es, MemStorage.getPlaylistTracks linkStore 1 = Except.ok es ∧
      es.countP (fun e => e.track.id == 1) = 1 :=
  c1_add_is_idempotent linkStore 1 1 5 { id := 1, playlistId := 1, trackId := 1, position := 0 }
    (by decide) (by decide) (by decide) (by unfold TrackKeys; decide)
    (by unfold LinksResolveT; decide)

/-! ## C2: position assignment on a fresh insert -/

/-- In the insert branch (both parents exist, pair not linked) the storage
method stores the link at the current counter. -/
theorem addTrackToPlaylist_insert {s : MemStorage} {pid tid : Nat} (pos : Int)
    (hpl : (mapGet s.playlists pid).isSome)
    (htr : (mapGet s.tracks tid).isSome)
    (hfind : (mapValues s.playlistTracks).find?
        (fun pt => pt.playlistId == pid && pt.trackId == tid) = none) :
    MemStorage.addTrackToPlaylist s { playlistId := pid, trackId := tid, position := pos } =
      (Except.ok { id := s.playlistTrackId, playlistId := pid, trackId := tid
                   position := pos },
       { s with
          playlistTracks := mapSet s.playlistTracks s.playlistTrackId
            { id := s.playlistTrackId, playlistId := pid, trackId := tid, position := pos }
          playlistTrackId := s.playlistTrackId + 1 }) := by
  obtain ⟨pl, hpl2⟩ := Option.isSome_iff_exists.mp hpl
  obtain ⟨t, ht2⟩ := Option.isSome_iff_exists.mp htr
  simp only [MemStorage.addTrackToPlaylist, hpl2, ht2, hfind]

/-- Sorting does not change the multiset of positions, so membership of a
position value is preserved. -/
theorem mem_map_position_sortByPos {x : Int} {l : List PlaylistEntry} :
    x ∈ (sortByPos l).map (fun e => e.position) ↔ x ∈ l.map (fun e => e.position) := by
  simp only [List.mem_map]
  constructor
  · rintro ⟨e, he, rfl⟩
    exact ⟨e, mem_sortByPos.mp he, rfl⟩
  · rintro ⟨e, he, rfl⟩
    exact ⟨e, mem_sortByPos.mpr he, rfl⟩

/-- C2: adding a not-yet-linked track to an existing, owned playlist stores it
at one plus the maximum position of the playlist's links — position 0 when the
playlist has no links. -/
theorem c2_add_assigns_next_position (s : MemStorage) (uid pid tid : Nat)
    (pl : Playlist) (es : List PlaylistEntry)
    (hpl : mapGet s.playlists pid = some pl)
    (hown : pl.userId = uid)
    (htr : (mapGet s.tracks tid).isSome)
    (hnew : pairCount s pid tid = 0)
    (hes : MemStorage.getPlaylistTracks s pid = Except.ok es) :
    ∃ pt s2, postPlaylistTrack s uid pid tid = ((201, some pt), s2) ∧
      pt.playlistId = pid ∧ pt.trackId = tid ∧
      (∀ q ∈ linksOf s pid, q.position < pt.position) ∧
      (linksOf s pid = [] → pt.position = 0) ∧
      (linksOf s pid ≠ [] → ∃ q ∈ linksOf s pid, pt.position = q.position + 1) ∧
      mapGet s2.playlistTracks s.playlistTrackId = some pt := by
  have hre : ∃ es0, resolveEntries s.tracks (linksOf s pid) = Except.ok es0 ∧
      es = sortByPos es0 := by
    rw [MemStorage.getPlaylistTracks] at hes
    rcases h0 : resolveEntries s.tracks (linksOf s pid) with e0 | es0
    · rw [h0] at hes; exact absurd hes (by simp)
    · rw [h0] at hes
      injection hes with hes
      exact ⟨es0, rfl, hes.symm⟩
  obtain ⟨es0, hes0, hessort⟩ := hre
  have hposeq : es0.map (fun e => e.position) = (linksOf s pid).map (fun q => q.position) :=
    resolveEntries_map_position hes0
  have hfind : (mapValues s.playlistTracks).find?
      (fun pt => pt.playlistId == pid && pt.trackId == tid) = none := by
    rw [List.find?_eq_none]
    intro a ha hpa
    have hmemf : a ∈ (mapValues s.playlistTracks).filter
        (fun pt => pt.playlistId == pid && pt.trackId == tid) :=
      List.mem_filter.mpr ⟨ha, hpa⟩
    have hlen := List.length_pos_of_mem hmemf
    rw [pairCount] at hnew
    omega
  simp only [postPlaylistTrack, MemStorage.getPlaylistById, hpl]
  rw [if_pos hown]
  simp only [hes]
  rcases hmap : es.map (fun e => e.position) with _ | ⟨p, ps⟩
  · -- the playlist has no links
    have hes_nil : es = [] := List.map_eq_nil_iff.mp hmap
    have hes0_nil : es0 = [] := by
      have hlen := congrArg List.length hessort
      rw [hes_nil, length_sortByPos] at hlen
      exact List.length_eq_zero.mp hlen.symm
    have hlinks_nil : linksOf s pid = [] := by
      have h1 := congrArg List.length hposeq
      rw [hes0_nil] at h1
      simp only [List.map_nil, List.length_nil, List.length_map] at h1
      exact List.length_eq_zero.mp h1.symm
    simp only [hmap]
    have hadd := addTrackToPlaylist_insert ((-1 : Int) + 1)
      (by simp [hpl]) htr hfind
    simp only [hadd]
    refine ⟨_, _, rfl, rfl, rfl, ?_, ?_, ?_, ?_⟩
    · intro q hq
      rw [hlinks_nil] at hq
      cases hq
    · intro _
      show (-1 : Int) + 1 = 0
      decide
    · intro hne
      exact absurd hlinks_nil hne
    · exact mapGet_mapSet_self _ _ _
  · -- the playlist has at least one link
    simp only [hmap]
    have hadd := addTrackToPlaylist_insert (ps.foldl max p + 1)
      (by simp [hpl]) htr hfind
    simp only [hadd]
    have hmemiff : ∀ x : Int, x ∈ p :: ps ↔
        x ∈ (linksOf s pid).map (fun q => q.position) := by
      intro x
      rw [← hmap, hessort, mem_map_position_sortByPos, hposeq]
    refine ⟨_, _, rfl, rfl, rfl, ?_, ?_, ?_, ?_⟩
    · intro q hq
      have hqmem : q.position ∈ p :: ps :=
        (hmemiff q.position).mpr (List.mem_map_of_mem _ hq)
      have hle := foldl_max_le hqmem
      show q.position < ps.foldl max p + 1
      omega
    · intro hnil
      have : (p : Int) ∈ p :: ps := List.mem_cons_self _ _
      rw [hmemiff p, hnil] at this
      simp at this
    · intro _
      have hmax : ps.foldl max p ∈ (linksOf s pid).map (fun q => q.position) :=
        (hmemiff _).mp (foldl_max_mem ps p)
      obtain ⟨q, hq, hqpos⟩ := List.mem_map.mp hmax
      refine ⟨q, hq, ?_⟩
      show ps.foldl max p + 1 = q.position + 1
      rw [hqpos]
    · exact mapGet_mapSet_self _ _ _

/-- C2 witness: on playlist 1 with no links, the first add stores position 0
and the second add (of the other track) stores position 1. -/
theorem c2_witness :
    (∃ pt s2, postPlaylistTrack twoTrackStore 1 1 1 = ((201, some pt), s2) ∧
      pt.playlistId = 1 ∧ pt.trackId = 1 ∧
      (∀ q ∈ linksOf twoTrackStore 1, q.position < pt.position) ∧
      (linksOf twoTrackStore 1 = [] → pt.position = 0) ∧
      (linksOf twoTrackStore 1 ≠ [] →
        ∃ q ∈ linksOf twoTrackStore 1, pt.position = q.position + 1) ∧
      mapGet s2.playlistTracks twoTrackStore.playlistTrackId = some pt) ∧
    (∃ pt s2, postPlaylistTrack afterFirstAdd 1 1 2 = ((201, some pt), s2) ∧
      pt.playlistId = 1 ∧ pt.trackId = 2 ∧
      (∀ q ∈ linksOf afterFirstAdd 1, q.position < pt.position) ∧
      (linksOf afterFirstAdd 1 = [] → pt.position = 0) ∧
      (linksOf afterFirstAdd 1 ≠ [] →
        ∃ q ∈ linksOf afterFirstAdd 1, pt.position = q.position + 1) ∧
      mapGet s2.playlistTracks afterFirstAdd.playlistTrackId = some pt) ∧
    (postPlaylistTrack twoTrackStore 1 1 1).1.2.map PlaylistTrack.position = some 0 ∧
    (postPlaylistTrack afterFirstAdd 1 1 2).1.2.map PlaylistTrack.position = some 1 := by
  refine ⟨?_, ?_, by decide, by decide⟩
  · exact c2_add_assigns_next_position twoTrackStore 1 1 1
      { id := 1, name := "Morning Reflections", userId := 1, color := "#2D46B9"
        icon := "ri-mic-fill" } []
      (by decide) (by decide) (by decide) (by decide) (by rfl)
  · exact c2_add_assigns_next_position afterFirstAdd 1 1 2
      { id := 1, name := "Morning Reflections", userId := 1, color := "#2D46B9"
        icon := "ri-mic-fill" }
      [{ track := demoTrack, position := 0 }]
      (by decide) (by decide) (by decide) (by decide) (by rfl)

/-! ## C3: cascading deletes -/

/-- Distinct entries cannot share a key in a nodup-keyed map. -/
theorem nodup_keys_eq {α : Type} {m : List (Nat × α)} (hnd : (m.map Prod.fst).Nodup)
    {k : Nat} {a b : α} (ha : (k, a) ∈ m) (hb : (k, b) ∈ m) : a = b := by
  induction m with
  | nil => cases ha
  | cons e rest ih =>
    rw [List.map_cons, List.nodup_cons] at hnd
    rcases List.mem_cons.mp ha with rfl | ha2
    · rcases List.mem_cons.mp hb with hb1 | hb2
      · injection hb1 with h1 h2
        exact h2.symm
      · exact absurd (List.mem_map_of_mem Prod.fst hb2) hnd.1
    · rcases List.mem_cons.mp hb with rfl | hb2
      · exact absurd (List.mem_map_of_mem Prod.fst ha2) hnd.1
      · exact ih hnd.2 ha2 hb2

/-- C3: `deletePlaylist` removes exactly its playlist's links (and the playlist
itself, in the same call), after which `getPlaylistTracks` returns the empty
sequence; `deleteTrack` removes exactly the links referencing the track (and
the track itself, in the same call). -/
theorem c3_delete_cascades (s : MemStorage) (pid tid : Nat)
    (hk : LinkKeys s)
    (hnd : (s.playlistTracks.map Prod.fst).Nodup) :
    (∀ e ∈ (MemStorage.deletePlaylist s pid).2.playlistTracks,
      (e : Nat × PlaylistTrack).2.playlistId ≠ pid) ∧
    (∀ e ∈ s.playlistTracks, (e : Nat × PlaylistTrack).2.playlistId ≠ pid →
      e ∈ (MemStorage.deletePlaylist s pid).2.playlistTracks) ∧
    MemStorage.getPlaylistTracks (MemStorage.deletePlaylist s pid).2 pid = Except.ok [] ∧
    (MemStorage.deletePlaylist s pid).2.playlists = mapDelete s.playlists pid ∧
    (∀ e ∈ (MemStorage.deleteTrack s tid).2.playlistTracks,
      (e : Nat × PlaylistTrack).2.trackId ≠ tid) ∧
    (∀ e ∈ s.playlistTracks, (e : Nat × PlaylistTrack).2.trackId ≠ tid →
      e ∈ (MemStorage.deleteTrack s tid).2.playlistTracks) ∧
    (MemStorage.deleteTrack s tid).2.tracks = mapDelete s.tracks tid := by
  have hgone : ∀ e ∈ (MemStorage.deletePlaylist s pid).2.playlistTracks,
      (e : Nat × PlaylistTrack).2.playlistId ≠ pid := by
    intro e he hpe
    simp only [MemStorage.deletePlaylist] at he
    obtain ⟨hem, hall⟩ := mem_foldDelete.mp he
    have hvd : e.2 ∈ (mapValues s.playlistTracks).filter
        (fun pt => pt.playlistId == pid) := by
      refine List.mem_filter.mpr ⟨mem_mapValues.mpr ⟨e.1, hem⟩, by simp [hpe]⟩
    exact hall e.2 hvd (hk e hem).symm
  refine ⟨hgone, ?_, ?_, rfl, ?_, ?_, rfl⟩
  · intro e he hne
    simp only [MemStorage.deletePlaylist]
    refine mem_foldDelete.mpr ⟨he, ?_⟩
    intro q hq hcontra
    have hqf := List.mem_filter.mp hq
    have hqpid : q.playlistId = pid := by simpa using hqf.2
    obtain ⟨kq, hkq⟩ := mem_mapValues.mp hqf.1
    have hkqid : kq = q.id := (hk (kq, q) hkq).symm
    rw [hkqid] at hkq
    have : e.2 = q := nodup_keys_eq hnd (by
      have : (e.1, e.2) = e := rfl
      rw [hcontra] at this ⊢
      exact this ▸ he) (hcontra ▸ hkq)
    exact hne (this ▸ hqpid ▸ rfl)
  · have hnil : linksOf (MemStorage.deletePlaylist s pid).2 pid = [] := by
      rw [linksOf]
      apply List.filter_eq_nil_iff.mpr
      intro a ha
      obtain ⟨k, hk2⟩ := mem_mapValues.mp ha
      have := hgone (k, a) hk2
      simpa using this
    rw [MemStorage.getPlaylistTracks, hnil]
    rfl
  · intro e he hte
    simp only [MemStorage.deleteTrack] at he
    obtain ⟨hem, hall⟩ := mem_foldDelete.mp he
    have hvd : e.2 ∈ (mapValues s.playlistTracks).filter
        (fun pt => pt.trackId == tid) := by
      refine List.mem_filter.mpr ⟨mem_mapValues.mpr ⟨e.1, hem⟩, by simp [hte]⟩
    exact hall e.2 hvd (hk e hem).symm
  · intro e he hne
    simp only [MemStorage.deleteTrack]
    refine mem_foldDelete.mpr ⟨he, ?_⟩
    intro q hq hcontra
    have hqf := List.mem_filter.mp hq
    have hqtid : q.trackId = tid := by simpa using hqf.2
    obtain ⟨kq, hkq⟩ := mem_mapValues.mp hqf.1
    have hkqid : kq = q.id := (hk (kq, q) hkq).symm
    rw [hkqid] at hkq
    have : e.2 = q := nodup_keys_eq hnd (by
      have : (e.1, e.2) = e := rfl
      rw [hcontra] at this ⊢
      exact this ▸ he) (hcontra ▸ hkq)
    exact hne (this ▸ hqtid ▸ rfl)

/-- C3 witness: cascading both ways from the store whose only link is
(playlist 1, track 1). -/
theorem c3_witness :
    MemStorage.getPlaylistTracks (MemStorage.deletePlaylist linkStore 1).2 1
      = Except.ok [] ∧
    (∀ e ∈ (MemStorage.deleteTrack linkStore 1).2.playlistTracks,
      (e : Nat × PlaylistTrack).2.trackId ≠ 1) := by
  have h := c3_delete_cascades linkStore 1 1 (by unfold LinkKeys; decide) (by decide)
  exact ⟨h.2.2.1, h.2.2.2.2.1⟩

/-! ## C4: created ids strictly increase and are never reused -/

/-- `addTrackToPlaylist` either leaves the store unchanged or inserts the new
link at the current counter and bumps it. -/
theorem addTrackToPlaylist_cases (s : MemStorage) (ipt : InsertPlaylistTrack) :
    (MemStorage.addTrackToPlaylist s ipt).2 = s ∨
    MemStorage.addTrackToPlaylist s ipt =
      (Except.ok { id := s.playlistTrackId, playlistId := ipt.playlistId
                   trackId := ipt.trackId, position := ipt.position },
       { s with
          playlistTracks := mapSet s.playlistTracks s.playlistTrackId
            { id := s.playlistTrackId, playlistId := ipt.playlistId
              trackId := ipt.trackId, position := ipt.position }
          playlistTrackId := s.playlistTrackId + 1 }) := by
  rcases h1 : mapGet s.playlists ipt.playlistId with _ | pl
  · left
    simp only [MemStorage.addTrackToPlaylist, h1]
  · rcases h2 : mapGet s.tracks ipt.trackId with _ | t
    · left
      simp only [MemStorage.addTrackToPlaylist, h1, h2]
    · rcases h3 : (mapValues s.playlistTracks).find?
          (fun pt => pt.playlistId == ipt.playlistId && pt.trackId == ipt.trackId)
          with _ | ex
      · right
        simp only [MemStorage.addTrackToPlaylist, h1, h2, h3]
      · left
        simp only [MemStorage.addTrackToPlaylist, h1, h2, h3]

/-- No store operation ever decreases any of the five id counters. -/
theorem applyOp_counters_mono (s : MemStorage) (o : Op) :
    s.userId ≤ (applyOp s o).userId ∧ s.categoryId ≤ (applyOp s o).categoryId ∧
    s.playlistId ≤ (applyOp s o).playlistId ∧ s.trackId ≤ (applyOp s o).trackId ∧
    s.playlistTrackId ≤ (applyOp s o).playlistTrackId := by
  cases o with
  | createUser iu =>
    exact ⟨Nat.le_succ _, le_refl _, le_refl _, le_refl _, le_refl _⟩
  | updateUser id p =>
    rcases h : mapGet s.users id with _ | u <;>
      simp only [applyOp, MemStorage.updateUser, h] <;>
      exact ⟨le_refl _, le_refl _, le_refl _, le_refl _, le_refl _⟩
  | createCategory ic =>
    exact ⟨le_refl _, Nat.le_succ _, le_refl _, le_refl _, le_refl _⟩
  | updateCategory id p =>
    rcases h : mapGet s.categories id with _ | c <;>
      simp only [applyOp, MemStorage.updateCategory, h] <;>
      exact ⟨le_refl _, le_refl _, le_refl _, le_refl _, le_refl _⟩
  | deleteCategory id =>
    exact ⟨le_refl _, le_refl _, le_refl _, le_refl _, le_refl _⟩
  | createPlaylist ip =>
    exact ⟨le_refl _, le_refl _, Nat.le_succ _, le_refl _, le_refl _⟩
  | updatePlaylist id p =>
    rcases h : mapGet s.playlists id with _ | pl <;>
      simp only [applyOp, MemStorage.updatePlaylist, h] <;>
      exact ⟨le_refl _, le_refl _, le_refl _, le_refl _, le_refl _⟩
  | deletePlaylist id =>
    exact ⟨le_refl _, le_refl _, le_refl _, le_refl _, le_refl _⟩
  | createTrack it now =>
    exact ⟨le_refl _, le_refl _, le_refl _, Nat.le_succ _, le_refl _⟩
  | updateTrack id p =>
    rcases h : mapGet s.tracks id with _ | t <;>
      simp only [applyOp, MemStorage.updateTrack, h] <;>
      exact ⟨le_refl _, le_refl _, le_refl _, le_refl _, le_refl _⟩
  | deleteTrack id =>
    exact ⟨le_refl _, le_refl _, le_refl _, le_refl _, le_refl _⟩
  | addTrackToPlaylist ipt =>
    rcases addTrackToPlaylist_cases s ipt with hc | hc
    · rw [show applyOp s (Op.addTrackToPlaylist ipt)
          = (MemStorage.addTrackToPlaylist s ipt).2 from rfl, hc]
      exact ⟨le_refl _, le_refl _, le_refl _, le_refl _, le_refl _⟩
    · rw [show applyOp s (Op.addTrackToPlaylist ipt)
          = (MemStorage.addTrackToPlaylist s ipt).2 from rfl, hc]
      exact ⟨le_refl _, le_refl _, le_refl _, le_refl _, Nat.le_succ _⟩
  | removeTrackFromPlaylist pid tid =>
    rcases h : (mapValues s.playlistTracks).find?
        (fun pt => pt.playlistId == pid && pt.trackId == tid) with _ | pt <;>
      simp only [applyOp, MemStorage.removeTrackFromPlaylist, h] <;>
      exact ⟨le_refl _, le_refl _, le_refl _, le_refl _, le_refl _⟩
  | updateTrackPosition pid tid pos =>
    rcases h : (mapValues s.playlistTracks).find?
        (fun pt => pt.playlistId == pid && pt.trackId == tid) with _ | pt <;>
      simp only [applyOp, MemStorage.updateTrackPosition, h] <;>
      exact ⟨le_refl _, le_refl _, le_refl _, le_refl _, le_refl _⟩

/-- A `createUser` call returns the current counter and bumps it. -/
theorem userCreate_bump (s : MemStorage) (o : Op) (i : Nat)
    (h : userCreate s o = some i) :
    i = s.userId ∧ s.userId + 1 ≤ (applyOp s o).userId := by
  cases o <;> simp [userCreate] at h
  case createUser iu =>
    refine ⟨by exact h.symm, ?_⟩
    show s.userId + 1 ≤ s.userId + 1
    exact le_refl _

/-- A `createCategory` call returns the current counter and bumps it. -/
theorem categoryCreate_bump (s : MemStorage) (o : Op) (i : Nat)
    (h : categoryCreate s o = some i) :
    i = s.categoryId ∧ s.categoryId + 1 ≤ (applyOp s o).categoryId := by
  cases o <;> simp [categoryCreate] at h
  case createCategory ic =>
    refine ⟨by exact h.symm, ?_⟩
    show s.categoryId + 1 ≤ s.categoryId + 1
    exact le_refl _

/-- A `createPlaylist` call returns the current counter and bumps it. -/
theorem playlistCreate_bump (s : MemStorage) (o : Op) (i : Nat)
    (h : playlistCreate s o = some i) :
    i = s.playlistId ∧ s.playlistId + 1 ≤ (applyOp s o).playlistId := by
  cases o <;> simp [playlistCreate] at h
  case createPlaylist ip =>
    refine ⟨by exact h.symm, ?_⟩
    show s.playlistId + 1 ≤ s.playlistId + 1
    exact le_refl _

/-- A `createTrack` call returns the current counter and bumps it. -/
theorem trackCreate_bump (s : MemStorage) (o : Op) (i : Nat)
    (h : trackCreate s o = some i) :
    i = s.trackId ∧ s.trackId + 1 ≤ (applyOp s o).trackId := by
  cases o <;> simp [trackCreate] at h
  case createTrack it now =>
    refine ⟨by exact h.symm, ?_⟩
    show s.trackId + 1 ≤ s.trackId + 1
    exact le_refl _

/-- An inserting `addTrackToPlaylist` call assigns the current counter and
bumps it. -/
theorem linkCreate_bump (s : MemStorage) (o : Op) (i : Nat)
    (h : linkCreate s o = some i) :
    i = s.playlistTrackId ∧ s.playlistTrackId + 1 ≤ (applyOp s o).playlistTrackId := by
  cases o
  case addTrackToPlaylist ipt =>
    rcases addTrackToPlaylist_cases s ipt with hc | hc
    · exfalso
      rw [linkCreate] at h
      rcases hadd : MemStorage.addTrackToPlaylist s ipt with ⟨res, s2⟩
      rw [hadd] at h
      have hs2 : s2 = s := by rw [← hc, hadd]
      cases res with
      | error e => simp at h
      | ok pt =>
        rw [hs2] at h
        simp at h
    · simp [linkCreate, hc] at h
      refine ⟨by exact h.symm, ?_⟩
      rw [show applyOp s (Op.addTrackToPlaylist ipt)
          = (MemStorage.addTrackToPlaylist s ipt).2 from rfl, hc]
  all_goals simp [linkCreate] at h

/-- Generic trace lemma: if `f` reads off the newly-assigned id (equal to the
counter, which the call bumps) and no operation ever lowers the counter, then
the trace of assigned ids is strictly increasing. -/
theorem createdIds_strict_mono (f : MemStorage → Op → Option Nat)
    (proj : MemStorage → Nat)
    (hmono : ∀ s o, proj s ≤ proj (applyOp s o))
    (hbump : ∀ s o i, f s o = some i → i = proj s ∧ proj s + 1 ≤ proj (applyOp s o)) :
    ∀ (ops : List Op) (s : MemStorage),
      (createdIds f s ops).Pairwise (· < ·) ∧
      ∀ i ∈ createdIds f s ops, proj s ≤ i := by
  intro ops
  induction ops with
  | nil =>
    intro s
    simp [createdIds]
  | cons o rest ih =>
    intro s
    rcases hf : f s o with _ | i <;> simp only [createdIds, hf]
    · refine ⟨(ih (applyOp s o)).1, ?_⟩
      intro j hj
      exact le_trans (hmono s o) ((ih (applyOp s o)).2 j hj)
    · obtain ⟨hi, hb⟩ := hbump s o i hf
      refine ⟨List.pairwise_cons.mpr ⟨?_, (ih (applyOp s o)).1⟩, ?_⟩
      · intro j hj
        have hge := (ih (applyOp s o)).2 j hj
        omega
      · intro j hj
        rcases List.mem_cons.mp hj with rfl | hj2
        · omega
        · have hge := (ih (applyOp s o)).2 j hj2
          have hm := hmono s o
          omega

/-- C4: along any operation sequence from any store state, the ids handed out
by the create calls of each entity type are strictly increasing — hence
pairwise distinct, greater than every id previously assigned for that type,
and never reused, even after deletions. -/
theorem c4_created_ids_strictly_increase (s : MemStorage) (ops : List Op) :
    (createdIds userCreate s ops).Pairwise (· < ·) ∧
    (createdIds categoryCreate s ops).Pairwise (· < ·) ∧
    (createdIds playlistCreate s ops).Pairwise (· < ·) ∧
    (createdIds trackCreate s ops).Pairwise (· < ·) ∧
    (createdIds linkCreate s ops).Pairwise (· < ·) :=
  ⟨(createdIds_strict_mono userCreate MemStorage.userId
      (fun s o => (applyOp_counters_mono s o).1) userCreate_bump ops s).1,
   (createdIds_strict_mono categoryCreate MemStorage.categoryId
      (fun s o => (applyOp_counters_mono s o).2.1) categoryCreate_bump ops s).1,
   (createdIds_strict_mono playlistCreate MemStorage.playlistId
      (fun s o => (applyOp_counters_mono s o).2.2.1) playlistCreate_bump ops s).1,
   (createdIds_strict_mono trackCreate MemStorage.trackId
      (fun s o => (applyOp_counters_mono s o).2.2.2.1) trackCreate_bump ops s).1,
   (createdIds_strict_mono linkCreate MemStorage.playlistTrackId
      (fun s o => (applyOp_counters_mono s o).2.2.2.2) linkCreate_bump ops s).1⟩

/-! ## C8: the store never raises on reachable states -/

/-- Every store operation preserves the well-formedness conditions. -/
theorem inv_applyOp {s : MemStorage} (o : Op) (hinv : Inv s) : Inv (applyOp s o) := by
  obtain ⟨hTK, hPK, hLK, hRT, hRP⟩ := hinv
  cases o with
  | createUser iu =>
    exact ⟨hTK, hPK, hLK, hRT, hRP⟩
  | updateUser id p =>
    rcases h : mapGet s.users id with _ | u <;>
      simp only [applyOp, MemStorage.updateUser, h] <;>
      exact ⟨hTK, hPK, hLK, hRT, hRP⟩
  | createCategory ic =>
    exact ⟨hTK, hPK, hLK, hRT, hRP⟩
  | updateCategory id p =>
    rcases h : mapGet s.categories id with _ | c <;>
      simp only [applyOp, MemStorage.updateCategory, h] <;>
      exact ⟨hTK, hPK, hLK, hRT, hRP⟩
  | deleteCategory id =>
    exact ⟨hTK, hPK, hLK, hRT, hRP⟩
  | createPlaylist ip =>
    refine ⟨hTK, ?_, hLK, hRT, ?_⟩
    · intro e he
      rcases mem_mapSet he with rfl | hm
      · rfl
      · exact hPK e hm
    · intro e he
      exact mapGet_isSome_mapSet _ _ _ _ (hRP e he)
  | updatePlaylist id p =>
    rcases h : mapGet s.playlists id with _ | pl
    · simp only [applyOp, MemStorage.updatePlaylist, h]
      exact ⟨hTK, hPK, hLK, hRT, hRP⟩
    · have hid : pl.id = id := hPK (id, pl) (mapGet_mem h)
      simp only [applyOp, MemStorage.updatePlaylist, h]
      refine ⟨hTK, ?_, hLK, hRT, ?_⟩
      · intro e he
        rcases mem_mapSet he with rfl | hm
        · exact hid
        · exact hPK e hm
      · intro e he
        exact mapGet_isSome_mapSet _ _ _ _ (hRP e he)
  | deletePlaylist id =>
    refine ⟨hTK, ?_, ?_, ?_, ?_⟩
    · intro e he
      exact hPK e (mem_mapDelete.mp he).1
    · intro e he
      exact hLK e (mem_foldDelete.mp he).1
    · intro e he
      exact hRT e (mem_foldDelete.mp he).1
    · intro e he
      obtain ⟨hem, hall⟩ := mem_foldDelete.mp he
      have hne : e.2.playlistId ≠ id := by
        intro hpe
        have hvd : e.2 ∈ (mapValues s.playlistTracks).filter
            (fun pt => pt.playlistId == id) :=
          List.mem_filter.mpr ⟨mem_mapValues.mpr ⟨e.1, hem⟩, by simp [hpe]⟩
        exact hall e.2 hvd (hLK e hem).symm
      rw [show (applyOp s (Op.deletePlaylist id)).playlists
          = mapDelete s.playlists id from rfl, mapGet_mapDelete_ne _ hne]
      exact hRP e hem
  | createTrack it now =>
    refine ⟨?_, hPK, hLK, ?_, hRP⟩
    · intro e he
      rcases mem_mapSet he with rfl | hm
      · rfl
      · exact hTK e hm
    · intro e he
      exact mapGet_isSome_mapSet _ _ _ _ (hRT e he)
  | updateTrack id p =>
    rcases h : mapGet s.tracks id with _ | t
    · simp only [applyOp, MemStorage.updateTrack, h]
      exact ⟨hTK, hPK, hLK, hRT, hRP⟩
    · have hid : t.id = id := hTK (id, t) (mapGet_mem h)
      simp only [applyOp, MemStorage.updateTrack, h]
      refine ⟨?_, hPK, hLK, ?_, hRP⟩
      · intro e he
        rcases mem_mapSet he with rfl | hm
        · exact hid
        · exact hTK e hm
      · intro e he
        exact mapGet_isSome_mapSet _ _ _ _ (hRT e he)
  | deleteTrack id =>
    refine ⟨?_, hPK, ?_, ?_, ?_⟩
    · intro e he
      exact hTK e (mem_mapDelete.mp he).1
    · intro e he
      exact hLK e (mem_foldDelete.mp he).1
    · intro e he
      obtain ⟨hem, hall⟩ := mem_foldDelete.mp he
      have hne : e.2.trackId ≠ id := by
        intro hte
        have hvd : e.2 ∈ (mapValues s.playlistTracks).filter
            (fun pt => pt.trackId == id) :=
          List.mem_filter.mpr ⟨mem_mapValues.mpr ⟨e.1, hem⟩, by simp [hte]⟩
        exact hall e.2 hvd (hLK e hem).symm
      rw [show (applyOp s (Op.deleteTrack id)).tracks
          = mapDelete s.tracks id from rfl, mapGet_mapDelete_ne _ hne]
      exact hRT e hem
    · intro e he
      exact hRP e (mem_foldDelete.mp he).1
  | addTrackToPlaylist ipt =>
    rcases h1 : mapGet s.playlists ipt.playlistId with _ | pl
    · simp only [applyOp, MemStorage.addTrackToPlaylist, h1]
      exact ⟨hTK, hPK, hLK, hRT, hRP⟩
    · rcases h2 : mapGet s.tracks ipt.trackId with _ | t
      · simp only [applyOp, MemStorage.addTrackToPlaylist, h1, h2]
        exact ⟨hTK, hPK, hLK, hRT, hRP⟩
      · rcases h3 : (mapValues s.playlistTracks).find?
            (fun pt => pt.playlistId == ipt.playlistId && pt.trackId == ipt.trackId)
            with _ | ex
        · simp only [applyOp, MemStorage.addTrackToPlaylist, h1, h2, h3]
          refine ⟨hTK, hPK, ?_, ?_, ?_⟩
          · intro e he
            rcases mem_mapSet he with rfl | hm
            · rfl
            · exact hLK e hm
          · intro e he
            rcases mem_mapSet he with rfl | hm
            · simp [h2]
            · exact hRT e hm
          · intro e he
            rcases mem_mapSet he with rfl | hm
            · simp [h1]
            · exact hRP e hm
        · simp only [applyOp, MemStorage.addTrackToPlaylist, h1, h2, h3]
          exact ⟨hTK, hPK, hLK, hRT, hRP⟩
  | removeTrackFromPlaylist pid tid =>
    rcases h : (mapValues s.playlistTracks).find?
        (fun pt => pt.playlistId == pid && pt.trackId == tid) with _ | pt
    · simp only [applyOp, MemStorage.removeTrackFromPlaylist, h]
      exact ⟨hTK, hPK, hLK, hRT, hRP⟩
    · simp only [applyOp, MemStorage.removeTrackFromPlaylist, h]
      refine ⟨hTK, hPK, ?_, ?_, ?_⟩
      · intro e he
        exact hLK e (mem_mapDelete.mp he).1
      · intro e he
        exact hRT e (mem_mapDelete.mp he).1
      · intro e he
        exact hRP e (mem_mapDelete.mp he).1
  | updateTrackPosition pid tid pos =>
    rcases h : (mapValues s.playlistTracks).find?
        (fun pt => pt.playlistId == pid && pt.trackId == tid) with _ | pt
    · simp only [applyOp, MemStorage.updateTrackPosition, h]
      exact ⟨hTK, hPK, hLK, hRT, hRP⟩
    · obtain ⟨kq, hkq⟩ := mem_mapValues.mp (List.mem_of_find?_eq_some h)
      have hkid : kq = pt.id := (hLK (kq, pt) hkq).symm
      rw [hkid] at hkq
      simp only [applyOp, MemStorage.updateTrackPosition, h]
      refine ⟨hTK, hPK, ?_, ?_, ?_⟩
      · intro e he
        rcases mem_mapSet he with rfl | hm
        · rfl
        · exact hLK e hm
      · intro e he
        rcases mem_mapSet he with rfl | hm
        · exact hRT (pt.id, pt) hkq
        · exact hRT e hm
      · intro e he
        rcases mem_mapSet he with rfl | hm
        · exact hRP (pt.id, pt) hkq
        · exact hRP e hm

/-- The well-formedness conditions hold along every trace. -/
theorem inv_runOps (ops : List Op) (s : MemStorage) (hinv : Inv s) :
    Inv (runOps s ops) := by
  induction ops generalizing s with
  | nil => exact hinv
  | cons o rest ih => exact ih _ (inv_applyOp o hinv)

/-- The seeded store is well-formed. -/
theorem inv_initialStore : Inv initialStore := by
  unfold Inv TrackKeys PlaylistKeys LinkKeys LinksResolveT LinksResolveP
  decide

/-- C8: in every store state reachable from the seeded store, reads, updates
and deletes on a missing id report absence (`none`, `false`, or an empty
sequence) without mutating anything, and `getPlaylistTracks` never reaches its
throw: it returns `ok` for every playlist id. -/
theorem c8_store_reports_absence (ops : List Op) (pid tid : Nat) (tp : TrackPatch)
    (pp : PlaylistPatch) :
    (∃ l, MemStorage.getPlaylistTracks (runOps initialStore ops) pid = Except.ok l) ∧
    (mapGet (runOps initialStore ops).tracks tid = none →
      MemStorage.getTrackById (runOps initialStore ops) tid = none ∧
      MemStorage.updateTrack (runOps initialStore ops) tid tp =
        (none, runOps initialStore ops) ∧
      MemStorage.deleteTrack (runOps initialStore ops) tid =
        (false, runOps initialStore ops)) ∧
    (mapGet (runOps initialStore ops).playlists pid = none →
      MemStorage.getPlaylistById (runOps initialStore ops) pid = none ∧
      MemStorage.getPlaylistTracks (runOps initialStore ops) pid = Except.ok [] ∧
      MemStorage.updatePlaylist (runOps initialStore ops) pid pp =
        (none, runOps initialStore ops) ∧
      MemStorage.deletePlaylist (runOps initialStore ops) pid =
        (false, runOps initialStore ops)) := by
  obtain ⟨hTK, hPK, hLK, hRT, hRP⟩ := inv_runOps ops initialStore inv_initialStore
  set s := runOps initialStore ops with hs
  refine ⟨?_, ?_, ?_⟩
  · have hall : ∀ pt ∈ linksOf s pid, (mapGet s.tracks pt.trackId).isSome := by
      intro pt hpt
      obtain ⟨k, hk⟩ := mem_mapValues.mp (List.mem_filter.mp hpt).1
      exact hRT (k, pt) hk
    obtain ⟨es, hes⟩ := resolveEntries_ok_of_isSome hall
    exact ⟨sortByPos es, by simp only [MemStorage.getPlaylistTracks, hes]⟩
  · intro hmiss
    refine ⟨hmiss, by simp [MemStorage.updateTrack, hmiss], ?_⟩
    have hdoomed : (mapValues s.playlistTracks).filter
        (fun pt => pt.trackId == tid) = [] := by
      apply List.filter_eq_nil_iff.mpr
      intro a ha
      obtain ⟨k, hk⟩ := mem_mapValues.mp ha
      have hsome := hRT (k, a) hk
      simp only [beq_iff_eq]
      intro heq
      rw [heq, hmiss] at hsome
      simp at hsome
    simp only [MemStorage.deleteTrack, hdoomed, List.foldl_nil]
    rw [mapDelete_of_none hmiss, mapHas_eq_false hmiss]
  · intro hmiss
    have hlinks : linksOf s pid = [] := by
      rw [linksOf]
      apply List.filter_eq_nil_iff.mpr
      intro a ha
      obtain ⟨k, hk⟩ := mem_mapValues.mp ha
      have hsome := hRP (k, a) hk
      simp only [beq_iff_eq]
      intro heq
      rw [heq, hmiss] at hsome
      simp at hsome
    refine ⟨hmiss, ?_, by simp [MemStorage.updatePlaylist, hmiss], ?_⟩
    · rw [MemStorage.getPlaylistTracks, hlinks]
      rfl
    · have hdoomed : (mapValues s.playlistTracks).filter
          (fun pt => pt.playlistId == pid) = [] := by
        rw [← linksOf]
        exact hlinks
      simp only [MemStorage.deletePlaylist, hdoomed, List.foldl_nil]
      rw [mapDelete_of_none hmiss, mapHas_eq_false hmiss]

/-- C8 witness: after creating and deleting a track, the reachable state still
answers every probe without throwing. -/
theorem c8_witness :
    (∃ l, MemStorage.getPlaylistTracks (runOps initialStore demoOps) 1 = Except.ok l) ∧
    MemStorage.updateTrack (runOps initialStore demoOps) 99 emptyTrackPatch =
      (none, runOps initialStore demoOps) ∧
    MemStorage.deletePlaylist (runOps initialStore demoOps) 77 =
      (false, runOps initialStore demoOps) := by
  have h1 := c8_store_reports_absence demoOps 1 99 emptyTrackPatch emptyPlaylistPatch
  have h2 := c8_store_reports_absence demoOps 77 99 emptyTrackPatch emptyPlaylistPatch
  exact ⟨h1.1, (h1.2.1 (by decide)).2.1, (h2.2.2 (by decide)).2.2.2⟩

end Vault
